import Mathlib

/-!
Shallow embedding of the flow-orchestrator telemetry client's aggregation
core (`src/aggregator/aggregator.rs`, `src/common/mod.rs`,
`src/common/metric.rs`).

Conventions of the embedding:
* Rust `u64` timestamps become `Nat`; the one place the code subtracts two
  `u64`s (`first.0 - cur.0` in the rule pass) is embedded as wrapping
  subtraction modulo `2^64` (`wsub`), matching release-mode Rust.
* Rust `f64` arithmetic is embedded as exact rational (`ℚ`) arithmetic;
  `x as i64` becomes truncation toward zero (`truncQ`).  On every concrete
  value appearing in the theorems below the IEEE-754 double computation and
  the exact rational computation agree.
* `HashMap<String, MetricEntry>` becomes an association list in insertion
  order; `VecDeque` becomes a `List` whose head is the deque's front
  (index 0).
-/

namespace FlowTel

/-- Rust `MetricValue` from `src/common/metric.rs`. -/
inductive MetricValue where
  | empty : MetricValue
  | integer : Int → MetricValue
  | number : ℚ → MetricValue
  | str : String → MetricValue
deriving DecidableEq, Repr

/-- Rust `MetricRawUnit` from `src/common/metric.rs`. -/
inductive MetricRawUnit where
  | rnone : MetricRawUnit
  | packets : MetricRawUnit
  | bits : MetricRawUnit
  | bytes : MetricRawUnit
  | seconds : MetricRawUnit
deriving DecidableEq, Repr

/-- Rust `OrderOfMagnitude` from `src/common/metric.rs`. -/
inductive OrderOfMagnitude where
  | nano : OrderOfMagnitude
  | micro : OrderOfMagnitude
  | milli : OrderOfMagnitude
  | one : OrderOfMagnitude
  | kilo : OrderOfMagnitude
  | mega : OrderOfMagnitude
  | giga : OrderOfMagnitude
  | tera : OrderOfMagnitude
deriving DecidableEq, Repr

/-- Rust `OrderOfMagnitude::get_exponent`. -/
def OrderOfMagnitude.get_exponent : OrderOfMagnitude → Int
  | .nano => -9
  | .micro => -6
  | .milli => -3
  | .one => 0
  | .kilo => 3
  | .mega => 6
  | .giga => 9
  | .tera => 12

/-- Rust `OrderOfMagnitude::get_factor` (`10.0_f64.powi(exponent)`), as an exact
rational. -/
def OrderOfMagnitude.get_factor (o : OrderOfMagnitude) : ℚ :=
  (10 : ℚ) ^ o.get_exponent

/-- Rust `MetricUnit` from `src/common/metric.rs`: numerator, denominator,
order of magnitude. -/
structure MetricUnit where
  raw_unit_num : MetricRawUnit
  raw_unit_den : MetricRawUnit
  order_of_magnitude : OrderOfMagnitude
deriving DecidableEq, Repr

/-- Rust `Metric` from `src/common/metric.rs`. -/
structure Metric where
  label : String
  unit : MetricUnit
  value : MetricValue
deriving DecidableEq, Repr

/-- Rust `impl From<&MetricValue> for f64`: numeric coercion. -/
def MetricValue.toQ : MetricValue → ℚ
  | .empty => 0
  | .integer v => (v : ℚ)
  | .number v => v
  | .str _ => 0

/-- The discriminant test used by `create_auto_rules` and
`get_metric_history`: the value is `Number` or `Integer`. -/
def MetricValue.isNumeric : MetricValue → Bool
  | .integer _ => true
  | .number _ => true
  | _ => false

/-- Rust `AutoMetricRuleType` from `src/aggregator/aggregator.rs`. -/
inductive AutoMetricRuleType where
  | timeDifferentiate : AutoMetricRuleType
  | movingAverage : Nat → AutoMetricRuleType
  | expFalloffAverage : ℚ → AutoMetricRuleType
deriving DecidableEq, Repr

/-- Rust `AutoMetricRule` from `src/aggregator/aggregator.rs`. -/
structure AutoMetricRule where
  src_metric_name : String
  dst_metric_name : String
  rule_type : AutoMetricRuleType
deriving DecidableEq, Repr

/-- Rust `MetricStorage`: current value only, or current value plus the history
ring (front of the list = `VecDeque` index 0 = newest sample). -/
inductive MetricStorage where
  | currentOnly : Metric → MetricStorage
  | history : Metric → List (Nat × MetricValue) → MetricStorage
deriving DecidableEq, Repr

/-- Rust `MetricEntry`: storage plus optional parent label. -/
structure MetricEntry where
  storage : MetricStorage
  parent_metric : Option String
deriving DecidableEq, Repr

/-- Rust `MetricAggregator` state. -/
structure AggState where
  metrics : List (String × MetricEntry)
  last_timestamp : Nat
  auto_metric_rules : List AutoMetricRule
  max_history : Nat
  desired_deltat_diffs_us : Nat
  messages_received : Nat
deriving Repr

/-- Rust `DEFAULT_MAX_HISTORY`. -/
def DEFAULT_MAX_HISTORY : Nat := 128

/-- Rust `DEFAULT_DELTAT`. -/
def DEFAULT_DELTAT : Nat := 250000

/-- Rust `MetricAggregator::new`. -/
def AggState.new : AggState :=
  { metrics := []
    last_timestamp := 0
    auto_metric_rules := []
    max_history := DEFAULT_MAX_HISTORY
    desired_deltat_diffs_us := DEFAULT_DELTAT
    messages_received := 0 }

/-- Rust `vec_shift` from `src/common/mod.rs`: insert at the front when below
capacity, otherwise `rotate_right(1)` followed by overwriting index 0,
i.e. drop the back element and prepend. -/
def vec_shift {α : Type} (data : List α) (new_element : α) (max_size : Nat) :
    List α :=
  if data.length < max_size then new_element :: data
  else new_element :: data.dropLast

/-- Association-list lookup standing in for `HashMap::get`. -/
def lookupEntry (ms : List (String × MetricEntry)) (l : String) :
    Option MetricEntry :=
  (ms.find? (fun p => p.1 = l)).map (fun p => p.2)

/-- Replace the entry of an existing key in place (`HashMap::get_mut`). -/
def updateEntry : List (String × MetricEntry) → String → MetricEntry →
    List (String × MetricEntry)
  | [], _, _ => []
  | (k, v) :: rest, l, e =>
      if k = l then (k, e) :: rest else (k, v) :: updateEntry rest l e

/-- Truncation toward zero, the semantics of Rust's `as i64` cast on the
(finite, in-range) values arising here. -/
def truncQ (q : ℚ) : Int := if 0 ≤ q then ⌊q⌋ else ⌈q⌉

/-- Wrapping `u64` subtraction (release-mode `first.0 - cur.0`). -/
def wsub (a b : Nat) : Nat := (a + 2 ^ 64 - b) % 2 ^ 64

/-- Rust `str::ends_with` on string suffixes, expressed over the character
sequences of the two strings. -/
def strEndsWith (s t : String) : Bool :=
  decide (t.data = s.data.drop (s.data.length - t.data.length))

/-- Rust `metric_from_time_diff` from `src/aggregator/aggregator.rs`. -/
def metric_from_time_diff (first second : MetricValue)
    (src_unit : MetricUnit) (dst_name : String) (time_diff_us : Nat) :
    Option Metric :=
  let time_diff_s : ℚ := (time_diff_us : ℚ) * (1 / 1000000)
  let value_diff : ℚ := first.toQ - second.toQ
  let order_of_magnitude : OrderOfMagnitude :=
    match src_unit.raw_unit_num with
    | .bytes => .kilo
    | .bits => .mega
    | _ => .one
  let scaling : ℚ := 1 / order_of_magnitude.get_factor
  let rate_value : Int := truncQ ((scaling * value_diff) / time_diff_s)
  some { label := dst_name
         unit := { raw_unit_num := src_unit.raw_unit_num
                   raw_unit_den := .seconds
                   order_of_magnitude := order_of_magnitude }
         value := .integer rate_value }

/-- Rust `metric_from_avg` from `src/aggregator/aggregator.rs`. -/
def metric_from_avg (value : ℚ) (src_unit : MetricUnit) (dst_name : String) :
    Option Metric :=
  some { label := dst_name, unit := src_unit, value := .number value }

/-- Rust `create_auto_rules`: may append one rule when a newly created
`History` entry has numeric current value. -/
def create_auto_rules (s : AggState) (metric_storage : MetricStorage) :
    AggState :=
  match metric_storage with
  | .history current _ =>
      if current.value.isNumeric then
        if current.unit.raw_unit_den ≠ .seconds then
          if current.unit.raw_unit_num ≠ .rnone ∧
              current.unit.raw_unit_num ≠ .seconds then
            { s with auto_metric_rules := s.auto_metric_rules ++
                [{ src_metric_name := current.label
                   dst_metric_name := current.label ++ "-ps"
                   rule_type := .timeDifferentiate }] }
          else s
        else if ¬ strEndsWith current.label "-avg" then
          { s with auto_metric_rules := s.auto_metric_rules ++
              [{ src_metric_name := current.label
                 dst_metric_name := current.label ++ "-avg"
                 rule_type := .movingAverage 32 }] }
        else s
      else s
  | _ => s

/-- Rust `handle_incoming_metric`: the store upsert. -/
def handle_incoming_metric (s : AggState) (metric : Metric)
    (parent_metric : Option String) : AggState :=
  match lookupEntry s.metrics metric.label with
  | some entry =>
      match entry.storage with
      | .history _ hist =>
          let hist' := vec_shift hist (s.last_timestamp, metric.value)
            s.max_history
          let entry' := { entry with storage := .history metric hist' }
          { s with metrics := updateEntry s.metrics metric.label entry' }
      | .currentOnly _ =>
          let entry' := { entry with storage := .currentOnly metric }
          { s with metrics := updateEntry s.metrics metric.label entry' }
  | none =>
      let metric_storage : MetricStorage :=
        match metric.unit.raw_unit_num with
        | .bytes | .bits | .packets | .rnone =>
            .history metric [(s.last_timestamp, metric.value)]
        | _ => .currentOnly metric
      let s1 := create_auto_rules s metric_storage
      { s1 with metrics := s1.metrics ++
          [(metric.label, { storage := metric_storage
                            parent_metric := parent_metric })] }

/-- The `TimeDifferentiate` scan: walk the history tail (older samples),
overwriting the candidate result with each sample whose wrapped time
distance to the newest sample reaches the threshold. -/
def timeDiffScan (first : Nat × MetricValue)
    (rest : List (Nat × MetricValue)) (thr : Nat) (unit : MetricUnit)
    (dst : String) : Option Metric :=
  rest.foldl (fun acc cur =>
    let time_diff_us := wsub first.1 cur.1
    if thr ≤ time_diff_us then
      metric_from_time_diff first.2 cur.2 unit dst time_diff_us
    else acc) none

/-- One rule's generated metric, computed against the current store
state (the body of the `match auto_rule.rule_type` in
`handle_auto_rules`). -/
def applyRule (s : AggState) (rule : AutoMetricRule) : Option Metric :=
  match lookupEntry s.metrics rule.src_metric_name with
  | none => none
  | some entry =>
      match rule.rule_type, entry.storage with
      | .timeDifferentiate, .history current_metric hist =>
          match hist with
          | [] => none
          | first :: rest =>
              timeDiffScan first rest s.desired_deltat_diffs_us
                current_metric.unit rule.dst_metric_name
      | .movingAverage depth, .history current_metric hist =>
          let taken := hist.take depth
          let count := taken.length
          let sum : ℚ := taken.foldl (fun acc p => acc + p.2.toQ) 0
          if 0 < count then
            metric_from_avg (sum / (count : ℚ)) current_metric.unit
              rule.dst_metric_name
          else none
      | _, _ => none

/-- One iteration of the `handle_auto_rules` loop: run rule `i` and feed
any generated metric back through the upsert with the rule's source as
parent. -/
def runRule (s : AggState) (i : Nat) : AggState :=
  match s.auto_metric_rules.get? i with
  | none => s
  | some rule =>
      match applyRule s rule with
      | none => s
      | some m => handle_incoming_metric s m (some rule.src_metric_name)

/-- Iterate `runRule` over indices `i, i+1, …` for `k` steps (the range
`0..len` of the Rust loop is captured once, before the loop body can
append rules). -/
def handleAutoRulesAux : AggState → Nat → Nat → AggState
  | s, _, 0 => s
  | s, i, k + 1 => handleAutoRulesAux (runRule s i) (i + 1) k

/-- Rust `handle_auto_rules`. -/
def handle_auto_rules (s : AggState) : AggState :=
  handleAutoRulesAux s 0 s.auto_metric_rules.length

/-- Rust `handle_metrics`: timestamp the batch, upsert every metric, then run
the full rule pass once. -/
def handle_metrics (s : AggState) (new_timestamp : Nat)
    (metrics : List Metric) : AggState :=
  let s1 := { s with last_timestamp := new_timestamp
                     messages_received := s.messages_received + 1 }
  let s2 := metrics.foldl
    (fun acc m => handle_incoming_metric acc m none) s1
  handle_auto_rules s2

/-- Rust `get_metric`. -/
def get_metric (s : AggState) (name : String) : Option Metric :=
  match lookupEntry s.metrics name with
  | some entry =>
      match entry.storage with
      | .history current _ => some current
      | .currentOnly current => some current
  | none => none

/-- The `for idx in 0..history.len()` loop of `get_metric_history`:
write the most-recent `reqLen` samples into `data` at positions
`reqLen - idx - 1` and fold the min/max accumulators exactly as the code
does (max seeded through `unwrap_or(0.0)`, min through
`unwrap_or(current)`). -/
def histLoopAux : List (Nat × MetricValue) → Nat → Nat →
    List (ℚ × ℚ) → Option ℚ → Option ℚ →
    List (ℚ × ℚ) × Option ℚ × Option ℚ
  | [], _, _, data, mn, mx => (data, mn, mx)
  | (t, v) :: rest, idx, reqLen, data, mn, mx =>
      let current_metric_val := v.toQ
      let data' := if idx < reqLen then
          data.set (reqLen - idx - 1) ((t : ℚ) / 1000000, current_metric_val)
        else data
      let mx' := some (max current_metric_val (mx.getD 0))
      let mn' := some (min current_metric_val (mn.getD current_metric_val))
      histLoopAux rest (idx + 1) reqLen data' mn' mx'

/-- Rust `get_metric_history`: the filled `data` vector together with the
returned `(min, max)` pair, or `none` where the code returns `None` /
leaves `data` untouched. -/
def get_metric_history (s : AggState) (name : String) (max_len : Nat) :
    Option (List (ℚ × ℚ) × ℚ × ℚ) :=
  match lookupEntry s.metrics name with
  | some entry =>
      match entry.storage with
      | .history current hist =>
          if current.value.isNumeric then
            let requested_len := min max_len hist.length
            let data0 := List.replicate requested_len ((0 : ℚ), (0 : ℚ))
            match histLoopAux hist 0 requested_len data0 none none with
            | (data, some mn, some mx) => some (data, mn, mx)
            | _ => none
          else none
      | .currentOnly _ => none
  | none => none

/-- Labels currently present in the store, in insertion order. -/
def keys (ms : List (String × MetricEntry)) : List String := ms.map Prod.fst

/-- The storage classification performed for a newly seen label (the inner
`match metric_unit.get_raw_unit().0` of `handle_incoming_metric`). -/
def classifyStorage (s : AggState) (m : Metric) : MetricStorage :=
  match m.unit.raw_unit_num with
  | .bytes | .bits | .packets | .rnone =>
      .history m [(s.last_timestamp, m.value)]
  | _ => .currentOnly m

/-- Storage kind: `true` for `History`, `false` for `CurrentOnly`. -/
def storageIsHistory : MetricStorage → Bool
  | .history _ _ => true
  | .currentOnly _ => false

/-- The storage kind of a label's entry, when present. -/
def entryKind (s : AggState) (l : String) : Option Bool :=
  (lookupEntry s.metrics l).map (fun e => storageIsHistory e.storage)

/-- Batch ingestion sequence from a starting state. -/
def runBatches (s : AggState) (bs : List (Nat × List Metric)) : AggState :=
  bs.foldl (fun acc b => handle_metrics acc b.1 b.2) s

/-- A sequence of store upserts (no rule pass in between). -/
def upsertSeq (s : AggState) (ms : List Metric) : AggState :=
  ms.foldl (fun acc m => handle_incoming_metric acc m none) s

/-- The "pkts" metric of the spec's end-to-end scenario. -/
def pktsMetric (v : Int) : Metric :=
  { label := "pkts"
    unit := { raw_unit_num := .packets, raw_unit_den := .rnone
              order_of_magnitude := .one }
    value := .integer v }

/-- State after ingesting batch `t=0 {pkts:100}` into a fresh aggregator. -/
def c1state1 : AggState := handle_metrics AggState.new 0 [pktsMetric 100]

/-- State after further ingesting batch `t=300000 {pkts:130}`. -/
def c1state2 : AggState := handle_metrics c1state1 300000 [pktsMetric 130]

/-- A `Bytes/None` counter metric labelled "ctr". -/
def bytesMetric (v : Int) : Metric :=
  { label := "ctr"
    unit := { raw_unit_num := .bytes, raw_unit_den := .rnone
              order_of_magnitude := .one }
    value := .integer v }

/-- State after ingesting batch `t=0 {ctr:1000}` into a fresh aggregator. -/
def c5state1 : AggState := handle_metrics AggState.new 0 [bytesMetric 1000]

/-- State after further ingesting batch `t=1000000 {ctr:3000}`. -/
def c5state2 : AggState := handle_metrics c5state1 1000000 [bytesMetric 3000]

/-- A small concrete store state used to instantiate theorems with
hypotheses: one `CurrentOnly` entry under label "a". -/
def smallState : AggState :=
  { metrics := [("a", MetricEntry.mk (.currentOnly (pktsMetric 1)) none)]
    last_timestamp := 0
    auto_metric_rules := []
    max_history := 128
    desired_deltat_diffs_us := 250000
    messages_received := 0 }

/-- The rule-list invariant behind the "no `-avg` of `-avg`" guarantee:
every `MovingAverage` rule's source label does not end in `-avg`, and its
destination is the source with `-avg` appended. -/
def NoAvgChain (s : AggState) : Prop :=
  ∀ rule ∈ s.auto_metric_rules, ∀ depth,
    rule.rule_type = AutoMetricRuleType.movingAverage depth →
    strEndsWith rule.src_metric_name "-avg" = false ∧
    rule.dst_metric_name = rule.src_metric_name ++ "-avg"

/-- An already-rate metric (denominator `Seconds`) labelled "r", the shape
that gates a `MovingAverage` rule on first sight. -/
def rateMetric (v : Int) : Metric :=
  { label := "r"
    unit := { raw_unit_num := .packets, raw_unit_den := .seconds
              order_of_magnitude := .one }
    value := .integer v }

/-- The `MovingAverage` rule created on first sight of `rateMetric`. -/
def mavgRule : AutoMetricRule :=
  { src_metric_name := "r", dst_metric_name := "r-avg"
    rule_type := .movingAverage 32 }

/-- A `Packets/None` metric labelled "x". -/
def xMetric (v : Int) : Metric :=
  { label := "x"
    unit := { raw_unit_num := .packets, raw_unit_den := .rnone
              order_of_magnitude := .one }
    value := .integer v }

/-- The `TimeDifferentiate` rule for source "x". -/
def tdRule : AutoMetricRule :=
  { src_metric_name := "x", dst_metric_name := "x-ps"
    rule_type := .timeDifferentiate }

/-- A three-sample newest-first history: two samples qualify for the
250000µs threshold (t=300000 and t=0), one does not. -/
def histSamples : List (Nat × MetricValue) :=
  [(600000, .integer 10), (300000, .integer 7), (0, .integer 1)]

/-- The entry of label "x" holding `histSamples`. -/
def histEntry : MetricEntry :=
  MetricEntry.mk (.history (xMetric 10) histSamples) none

/-- A concrete state whose entry "x" holds a three-sample history, used to
instantiate the baseline-selection theorem. -/
def histEntryState : AggState :=
  { metrics := [("x", histEntry)]
    last_timestamp := 600000
    auto_metric_rules := [tdRule]
    max_history := 128
    desired_deltat_diffs_us := 250000
    messages_received := 0 }

/-- A tiny fresh state with ring capacity 2, used to instantiate the
ring-bound theorem with more upserts than capacity. -/
def tinyState : AggState :=
  { metrics := []
    last_timestamp := 7
    auto_metric_rules := []
    max_history := 2
    desired_deltat_diffs_us := 250000
    messages_received := 0 }

/-- The `MovingAverage` rule with source "x" and depth 32. -/
def mavgRuleX : AutoMetricRule :=
  { src_metric_name := "x", dst_metric_name := "x-avg"
    rule_type := .movingAverage 32 }

/-- The entry of label "x" holding two integer samples, for the
moving-average theorem. -/
def avgEntry : MetricEntry :=
  MetricEntry.mk (.history (xMetric 10) [(10, .integer 4), (5, .integer 2)])
    none

/-- A concrete state whose entry "x" holds two samples and whose rule list
holds `mavgRuleX`. -/
def avgState : AggState :=
  { metrics := [("x", avgEntry)]
    last_timestamp := 10
    auto_metric_rules := [mavgRuleX]
    max_history := 128
    desired_deltat_diffs_us := 250000
    messages_received := 0 }

/-- State after ingesting a single negative `Bytes` sample, exhibiting
the max-fold seeding of `get_metric_history`. -/
def negState : AggState := handle_metrics AggState.new 0 [bytesMetric (-5)]

/-- The history-timestamp invariant: every `History` entry's ring holds
non-increasing timestamps from index 0 (newest first), all bounded by the
state's `last_timestamp`. -/
def HistSorted (s : AggState) : Prop :=
  ∀ (l : String) (entry : MetricEntry) (current : Metric)
    (hist : List (Nat × MetricValue)),
    lookupEntry s.metrics l = some entry →
    entry.storage = .history current hist →
    hist.Pairwise (fun a b => b.1 ≤ a.1) ∧
    ∀ p ∈ hist, p.1 ≤ s.last_timestamp

/-! ### Association-list store lemmas -/

lemma lookupEntry_nil (l : String) : lookupEntry [] l = none := rfl

lemma lookupEntry_cons (k : String) (v : MetricEntry)
    (tl : List (String × MetricEntry)) (l : String) :
    lookupEntry ((k, v) :: tl) l =
      if k = l then some v else lookupEntry tl l := by
  by_cases h : k = l
  · simp [lookupEntry, List.find?_cons_of_pos, h]
  · simp [lookupEntry, List.find?_cons_of_neg, h]

lemma updateEntry_cons (k : String) (v : MetricEntry)
    (tl : List (String × MetricEntry)) (l : String) (e : MetricEntry) :
    updateEntry ((k, v) :: tl) l e =
      if k = l then (k, e) :: tl else (k, v) :: updateEntry tl l e := rfl

lemma lookupEntry_eq_none_iff (ms : List (String × MetricEntry)) (l : String) :
    lookupEntry ms l = none ↔ l ∉ keys ms := by
  induction ms with
  | nil => simp [lookupEntry, keys]
  | cons hd tl ih =>
      obtain ⟨k, v⟩ := hd
      by_cases h : k = l
      · simp [lookupEntry_cons, keys, h]
      · simpa [lookupEntry_cons, keys, h, Ne.symm h] using ih

lemma lookupEntry_append_self (ms : List (String × MetricEntry)) (l : String)
    (e : MetricEntry) (h : lookupEntry ms l = none) :
    lookupEntry (ms ++ [(l, e)]) l = some e := by
  induction ms with
  | nil => simp [lookupEntry_cons]
  | cons hd tl ih =>
      obtain ⟨k, v⟩ := hd
      by_cases hh : k = l
      · simp [lookupEntry_cons, hh] at h
      · rw [lookupEntry_cons, if_neg hh] at h
        rw [List.cons_append, lookupEntry_cons, if_neg hh]
        exact ih h

lemma lookupEntry_append_ne (ms : List (String × MetricEntry))
    (l l' : String) (e : MetricEntry) (h : l' ≠ l) :
    lookupEntry (ms ++ [(l, e)]) l' = lookupEntry ms l' := by
  induction ms with
  | nil => simp [lookupEntry_cons, Ne.symm h, lookupEntry_nil]
  | cons hd tl ih =>
      obtain ⟨k, v⟩ := hd
      rw [List.cons_append, lookupEntry_cons, lookupEntry_cons]
      by_cases hh : k = l'
      · simp [hh]
      · rw [if_neg hh, if_neg hh]
        exact ih

lemma keys_updateEntry (ms : List (String × MetricEntry)) (l : String)
    (e : MetricEntry) : keys (updateEntry ms l e) = keys ms := by
  induction ms with
  | nil => rfl
  | cons hd tl ih =>
      obtain ⟨k, v⟩ := hd
      rw [updateEntry_cons]
      by_cases h : k = l
      · simp [keys, h]
      · simp only [if_neg h, keys, List.map_cons]
        simpa [keys] using ih

lemma lookupEntry_updateEntry_self (ms : List (String × MetricEntry))
    (l : String) (e e₀ : MetricEntry) (h : lookupEntry ms l = some e₀) :
    lookupEntry (updateEntry ms l e) l = some e := by
  induction ms with
  | nil => simp [lookupEntry_nil] at h
  | cons hd tl ih =>
      obtain ⟨k, v⟩ := hd
      rw [lookupEntry_cons] at h
      rw [updateEntry_cons]
      by_cases hh : k = l
      · rw [if_pos hh, lookupEntry_cons, if_pos hh]
      · rw [if_neg hh] at h
        rw [if_neg hh, lookupEntry_cons, if_neg hh]
        exact ih h

lemma lookupEntry_updateEntry_ne (ms : List (String × MetricEntry))
    (l l' : String) (e : MetricEntry) (h : l' ≠ l) :
    lookupEntry (updateEntry ms l e) l' = lookupEntry ms l' := by
  induction ms with
  | nil => rfl
  | cons hd tl ih =>
      obtain ⟨k, v⟩ := hd
      rw [updateEntry_cons]
      by_cases hh : k = l
      · subst hh
        rw [if_pos rfl, lookupEntry_cons, lookupEntry_cons,
          if_neg (fun hc => h hc.symm), if_neg (fun hc => h hc.symm)]
      · rw [if_neg hh, lookupEntry_cons, lookupEntry_cons]
        by_cases hk : k = l'
        · simp [hk]
        · rw [if_neg hk, if_neg hk]
          exact ih

/-! ### State-field stability of the store operations -/

lemma create_auto_rules_metrics (s : AggState) (st : MetricStorage) :
    (create_auto_rules s st).metrics = s.metrics := by
  unfold create_auto_rules
  split <;> first
  | rfl
  | (repeat' split) <;> rfl

lemma create_auto_rules_last (s : AggState) (st : MetricStorage) :
    (create_auto_rules s st).last_timestamp = s.last_timestamp := by
  unfold create_auto_rules
  split <;> first
  | rfl
  | (repeat' split) <;> rfl

lemma create_auto_rules_fields (s : AggState) (st : MetricStorage) :
    (create_auto_rules s st).max_history = s.max_history ∧
    (create_auto_rules s st).desired_deltat_diffs_us =
      s.desired_deltat_diffs_us := by
  unfold create_auto_rules
  split <;> first
  | exact ⟨rfl, rfl⟩
  | (repeat' split) <;> exact ⟨rfl, rfl⟩

lemma him_of_history (s : AggState) (m : Metric) (p : Option String)
    (e : MetricEntry) (c : Metric) (hist : List (Nat × MetricValue))
    (hfind : lookupEntry s.metrics m.label = some e)
    (hst : e.storage = .history c hist) :
    handle_incoming_metric s m p =
      { s with
          metrics := updateEntry s.metrics m.label
            (MetricEntry.mk
              (.history m
                (vec_shift hist (s.last_timestamp, m.value) s.max_history))
              e.parent_metric) } := by
  unfold handle_incoming_metric
  rw [hfind]
  dsimp only
  rw [hst]

lemma him_of_currentOnly (s : AggState) (m : Metric) (p : Option String)
    (e : MetricEntry) (c : Metric)
    (hfind : lookupEntry s.metrics m.label = some e)
    (hst : e.storage = .currentOnly c) :
    handle_incoming_metric s m p =
      { s with
          metrics := updateEntry s.metrics m.label
            (MetricEntry.mk (.currentOnly m) e.parent_metric) } := by
  unfold handle_incoming_metric
  rw [hfind]
  dsimp only
  rw [hst]

lemma him_of_new (s : AggState) (m : Metric) (p : Option String)
    (hfind : lookupEntry s.metrics m.label = none) :
    handle_incoming_metric s m p =
      { create_auto_rules s (classifyStorage s m) with
          metrics := (create_auto_rules s (classifyStorage s m)).metrics ++
              [(m.label, MetricEntry.mk (classifyStorage s m) p)] } := by
  unfold handle_incoming_metric classifyStorage
  rw [hfind]

lemma handle_incoming_metric_last (s : AggState) (m : Metric)
    (p : Option String) :
    (handle_incoming_metric s m p).last_timestamp = s.last_timestamp := by
  cases hfind : lookupEntry s.metrics m.label with
  | some e =>
      cases hst : e.storage with
      | history c hist => rw [him_of_history s m p e c hist hfind hst]
      | currentOnly c => rw [him_of_currentOnly s m p e c hfind hst]
  | none =>
      rw [him_of_new s m p hfind]
      exact create_auto_rules_last s _

lemma handle_incoming_metric_fields (s : AggState) (m : Metric)
    (p : Option String) :
    (handle_incoming_metric s m p).max_history = s.max_history ∧
    (handle_incoming_metric s m p).desired_deltat_diffs_us =
      s.desired_deltat_diffs_us := by
  cases hfind : lookupEntry s.metrics m.label with
  | some e =>
      cases hst : e.storage with
      | history c hist =>
          rw [him_of_history s m p e c hist hfind hst]
          exact ⟨rfl, rfl⟩
      | currentOnly c =>
          rw [him_of_currentOnly s m p e c hfind hst]
          exact ⟨rfl, rfl⟩
  | none =>
      rw [him_of_new s m p hfind]
      exact create_auto_rules_fields s _

lemma handle_incoming_metric_keys_mem (s : AggState) (m : Metric)
    (p : Option String) (e : MetricEntry)
    (hfind : lookupEntry s.metrics m.label = some e) :
    keys (handle_incoming_metric s m p).metrics = keys s.metrics := by
  cases hst : e.storage with
  | history c hist =>
      rw [him_of_history s m p e c hist hfind hst]
      exact keys_updateEntry _ _ _
  | currentOnly c =>
      rw [him_of_currentOnly s m p e c hfind hst]
      exact keys_updateEntry _ _ _

lemma handle_incoming_metric_keys_new (s : AggState) (m : Metric)
    (p : Option String) (hfind : lookupEntry s.metrics m.label = none) :
    keys (handle_incoming_metric s m p).metrics =
      keys s.metrics ++ [m.label] := by
  rw [him_of_new s m p hfind]
  show keys ((create_auto_rules s _).metrics ++ _) = _
  rw [create_auto_rules_metrics]
  simp [keys]

lemma handle_incoming_metric_entryKind (s : AggState) (m : Metric)
    (p : Option String) (l : String)
    (hl : (lookupEntry s.metrics l).isSome) :
    entryKind (handle_incoming_metric s m p) l = entryKind s l := by
  cases hfind : lookupEntry s.metrics m.label with
  | some e =>
      cases hst : e.storage with
      | history c hist =>
          by_cases hlm : l = m.label
          · subst hlm
            rw [entryKind, entryKind, him_of_history s m p e c hist hfind hst]
            show (lookupEntry (updateEntry _ _ _) _).map _ = _
            rw [lookupEntry_updateEntry_self _ _ _ e hfind, hfind]
            simp [storageIsHistory, hst]
          · rw [entryKind, entryKind, him_of_history s m p e c hist hfind hst]
            show (lookupEntry (updateEntry _ _ _) _).map _ = _
            rw [lookupEntry_updateEntry_ne _ _ _ _ hlm]
      | currentOnly c =>
          by_cases hlm : l = m.label
          · subst hlm
            rw [entryKind, entryKind, him_of_currentOnly s m p e c hfind hst]
            show (lookupEntry (updateEntry _ _ _) _).map _ = _
            rw [lookupEntry_updateEntry_self _ _ _ e hfind, hfind]
            simp [storageIsHistory, hst]
          · rw [entryKind, entryKind, him_of_currentOnly s m p e c hfind hst]
            show (lookupEntry (updateEntry _ _ _) _).map _ = _
            rw [lookupEntry_updateEntry_ne _ _ _ _ hlm]
  | none =>
      have hlm : l ≠ m.label := by
        intro hc
        rw [hc, hfind] at hl
        simp at hl
      rw [entryKind, entryKind, him_of_new s m p hfind]
      show (lookupEntry ((create_auto_rules s _).metrics ++ _) l).map _ = _
      rw [create_auto_rules_metrics, lookupEntry_append_ne _ _ _ _ hlm]

/-! ### Generic preservation through the rule pass and the batch loop -/

lemma runRule_preserve (P : AggState → Prop)
    (hstep : ∀ t m p, P t → P (handle_incoming_metric t m p))
    (t : AggState) (i : Nat) (ht : P t) : P (runRule t i) := by
  unfold runRule
  split
  · exact ht
  · split
    · exact ht
    · exact hstep _ _ _ ht

lemma handleAutoRulesAux_preserve (P : AggState → Prop)
    (hstep : ∀ t m p, P t → P (handle_incoming_metric t m p)) :
    ∀ k i t, P t → P (handleAutoRulesAux t i k) := by
  intro k
  induction k with
  | zero => intro i t ht; exact ht
  | succ n ih =>
      intro i t ht
      exact ih (i + 1) _ (runRule_preserve P hstep t i ht)

lemma foldl_him_preserve (P : AggState → Prop)
    (hstep : ∀ t m p, P t → P (handle_incoming_metric t m p)) :
    ∀ (ms : List Metric) (t : AggState), P t →
      P (List.foldl (fun acc m => handle_incoming_metric acc m none) t ms) := by
  intro ms
  induction ms with
  | nil => intro t ht; exact ht
  | cons m rest ih =>
      intro t ht
      exact ih _ (hstep _ _ _ ht)

lemma handle_metrics_preserve (P : AggState → Prop)
    (hstep : ∀ t m p, P t → P (handle_incoming_metric t m p))
    (s : AggState) (ts : Nat) (ms : List Metric)
    (h1 : P { s with last_timestamp := ts
                     messages_received := s.messages_received + 1 }) :
    P (handle_metrics s ts ms) := by
  unfold handle_metrics handle_auto_rules
  exact handleAutoRulesAux_preserve P hstep _ _ _
    (foldl_him_preserve P hstep ms _ h1)

/-! ### Timestamp stability -/

lemma runRule_last (s : AggState) (i : Nat) :
    (runRule s i).last_timestamp = s.last_timestamp := by
  unfold runRule
  split
  · rfl
  · split
    · rfl
    · exact handle_incoming_metric_last _ _ _

lemma handleAutoRulesAux_last :
    ∀ k i s, (handleAutoRulesAux s i k).last_timestamp = s.last_timestamp := by
  intro k
  induction k with
  | zero => intro i s; rfl
  | succ n ih =>
      intro i s
      rw [handleAutoRulesAux, ih (i + 1) _, runRule_last]

lemma foldl_him_last : ∀ (ms : List Metric) (t : AggState),
    AggState.last_timestamp
      (List.foldl (fun acc m => handle_incoming_metric acc m none) t ms) =
      t.last_timestamp := by
  intro ms
  induction ms with
  | nil => intro t; rfl
  | cons m rest ih =>
      intro t
      rw [List.foldl_cons, ih, handle_incoming_metric_last]

lemma handle_metrics_last (s : AggState) (ts : Nat) (ms : List Metric) :
    (handle_metrics s ts ms).last_timestamp = ts := by
  unfold handle_metrics handle_auto_rules
  rw [handleAutoRulesAux_last, foldl_him_last]

lemma handle_incoming_metric_isSome (s : AggState) (m : Metric)
    (p : Option String) (l : String)
    (hl : (lookupEntry s.metrics l).isSome) :
    (lookupEntry (handle_incoming_metric s m p).metrics l).isSome := by
  have h := handle_incoming_metric_entryKind s m p l hl
  unfold entryKind at h
  cases hafter : lookupEntry (handle_incoming_metric s m p).metrics l with
  | some e => rfl
  | none =>
      rw [hafter] at h
      cases hbefore : lookupEntry s.metrics l with
      | none => rw [hbefore] at hl; simp at hl
      | some e => rw [hbefore] at h; simp at h

lemma handle_incoming_metric_nodup (s : AggState) (m : Metric)
    (p : Option String) (h : (keys s.metrics).Nodup) :
    (keys (handle_incoming_metric s m p).metrics).Nodup := by
  cases hfind : lookupEntry s.metrics m.label with
  | some e =>
      rw [handle_incoming_metric_keys_mem s m p e hfind]
      exact h
  | none =>
      rw [handle_incoming_metric_keys_new s m p hfind]
      have hnotin : m.label ∉ keys s.metrics :=
        (lookupEntry_eq_none_iff _ _).mp hfind
      simp [List.nodup_append, h, hnotin]

lemma create_auto_rules_noAvgChain (s : AggState) (st : MetricStorage)
    (h : NoAvgChain s) : NoAvgChain (create_auto_rules s st) := by
  unfold create_auto_rules
  split
  · split
    · split
      · split
        · intro rule hr depth hd
          rcases List.mem_append.mp hr with h1 | h1
          · exact h rule h1 depth hd
          · simp only [List.mem_singleton] at h1
            subst h1
            simp at hd
        · exact h
      · split
        · intro rule hr depth hd
          rcases List.mem_append.mp hr with h1 | h1
          · exact h rule h1 depth hd
          · simp only [List.mem_singleton] at h1
            subst h1
            exact ⟨eq_false_of_ne_true (by assumption), rfl⟩
        · exact h
    · exact h
  · exact h

lemma handle_incoming_metric_noAvgChain (s : AggState) (m : Metric)
    (p : Option String) (h : NoAvgChain s) :
    NoAvgChain (handle_incoming_metric s m p) := by
  cases hfind : lookupEntry s.metrics m.label with
  | some e =>
      cases hst : e.storage with
      | history c hist =>
          rw [him_of_history s m p e c hist hfind hst]
          exact h
      | currentOnly c =>
          rw [him_of_currentOnly s m p e c hfind hst]
          exact h
  | none =>
      rw [him_of_new s m p hfind]
      exact create_auto_rules_noAvgChain s _ h

lemma runBatches_noAvgChain :
    ∀ (bs : List (Nat × List Metric)) (s : AggState),
      NoAvgChain s → NoAvgChain (runBatches s bs) := by
  intro bs
  induction bs with
  | nil => intro s h; exact h
  | cons b rest ih =>
      intro s h
      exact ih _ (handle_metrics_preserve NoAvgChain
        handle_incoming_metric_noAvgChain s b.1 b.2 h)

/-! ### The overwrite-scan of TimeDifferentiate -/

lemma foldl_overwrite {α β : Type} (f : α → Option β) (q : α → Prop)
    [DecidablePred q] (l : List α) (init : Option β) :
    l.foldl (fun acc x => if q x then f x else acc) init =
      (((l.filter (fun x => decide (q x))).getLast?).map f).getD init := by
  induction l generalizing init with
  | nil => rfl
  | cons a l ih =>
      rw [List.foldl_cons]
      by_cases hq : q a
      · rw [if_pos hq, ih, List.filter_cons_of_pos (by simpa using hq)]
        cases hfl : (l.filter (fun x => decide (q x))).getLast? with
        | some x =>
            rw [List.getLast?_cons, hfl]
            rfl
        | none =>
            rw [List.getLast?_cons, hfl]
            rfl
      · rw [if_neg hq, ih, List.filter_cons_of_neg (by simpa using hq)]

lemma timeDiffScan_eq (first : Nat × MetricValue)
    (rest : List (Nat × MetricValue)) (thr : Nat) (unit : MetricUnit)
    (dst : String) :
    timeDiffScan first rest thr unit dst =
      (((rest.filter (fun c => decide (thr ≤ wsub first.1 c.1))).getLast?).map
        (fun cur => metric_from_time_diff first.2 cur.2 unit dst
          (wsub first.1 cur.1))).getD none := by
  show rest.foldl (fun acc cur =>
    if thr ≤ wsub first.1 cur.1 then
      metric_from_time_diff first.2 cur.2 unit dst (wsub first.1 cur.1)
    else acc) none = _
  exact foldl_overwrite
    (fun cur => metric_from_time_diff first.2 cur.2 unit dst
      (wsub first.1 cur.1))
    (fun cur => thr ≤ wsub first.1 cur.1) rest none

lemma wsub_eq_sub (a b : Nat) (hba : b ≤ a) (ha : a < 2 ^ 64) :
    wsub a b = a - b := by
  unfold wsub
  have hN : 0 < 2 ^ 64 := Nat.pos_pow_of_pos 64 (by omega)
  generalize hg : (2 : Nat) ^ 64 = N at *
  have h1 : a + N - b = (a - b) + N := by omega
  rw [h1, Nat.add_mod_right]
  exact Nat.mod_eq_of_lt (by omega)

lemma getLast_le_of_pairwise :
    ∀ (l : List (Nat × MetricValue)),
      l.Pairwise (fun a b => b.1 ≤ a.1) →
      ∀ cur, l.getLast? = some cur → ∀ c ∈ l, cur.1 ≤ c.1 := by
  intro l
  induction l with
  | nil => intro _ cur hc; simp at hc
  | cons a l ih =>
      intro h cur hc c hcmem
      cases l with
      | nil =>
          simp at hc
          subst hc
          simp at hcmem
          subst hcmem
          exact le_refl _
      | cons b l2 =>
          rw [List.getLast?_cons_cons] at hc
          have hmem : cur ∈ b :: l2 := List.mem_of_mem_getLast? hc
          rcases List.mem_cons.mp hcmem with hca | hcl
          · subst hca
            exact (List.pairwise_cons.mp h).1 cur hmem
          · exact ih (List.pairwise_cons.mp h).2 cur hc c hcl

lemma runRule_eq (s : AggState) (i : Nat) (rule : AutoMetricRule)
    (hrule : s.auto_metric_rules.get? i = some rule) :
    runRule s i =
      match applyRule s rule with
      | none => s
      | some m => handle_incoming_metric s m (some rule.src_metric_name) := by
  unfold runRule
  rw [hrule]

lemma applyRule_timeDiff_nil (s : AggState) (rule : AutoMetricRule)
    (entry : MetricEntry) (current : Metric)
    (hlook : lookupEntry s.metrics rule.src_metric_name = some entry)
    (htype : rule.rule_type = .timeDifferentiate)
    (hstor : entry.storage = .history current []) :
    applyRule s rule = none := by
  unfold applyRule
  rw [hlook]
  dsimp only
  rw [htype, hstor]

lemma applyRule_timeDiff_cons (s : AggState) (rule : AutoMetricRule)
    (entry : MetricEntry) (current : Metric) (first : Nat × MetricValue)
    (rest : List (Nat × MetricValue))
    (hlook : lookupEntry s.metrics rule.src_metric_name = some entry)
    (htype : rule.rule_type = .timeDifferentiate)
    (hstor : entry.storage = .history current (first :: rest)) :
    applyRule s rule =
      timeDiffScan first rest s.desired_deltat_diffs_us current.unit
        rule.dst_metric_name := by
  unfold applyRule
  rw [hlook]
  dsimp only
  rw [htype, hstor]

/-! ### Iterated ring insertion -/

lemma take_dropLast_eq {α : Type} (d0 : List α) (k : Nat)
    (hk : k ≤ d0.length - 1) : d0.dropLast.take k = d0.take k := by
  rw [List.dropLast_eq_take, List.take_take]
  congr 1
  exact inf_eq_left.mpr hk

lemma foldl_vec_shift {α : Type} (maxs : Nat) (hmax : 1 ≤ maxs) :
    ∀ (es : List α) (d0 : List α), d0.length ≤ maxs →
      List.foldl (fun d e => vec_shift d e maxs) d0 es =
        (es.reverse ++ d0).take maxs := by
  intro es
  induction es with
  | nil =>
      intro d0 h0
      simp [List.take_of_length_le h0]
  | cons e es ih =>
      intro d0 h0
      rw [List.foldl_cons]
      by_cases h : d0.length < maxs
      · have hstep : vec_shift d0 e maxs = e :: d0 := by
          unfold vec_shift
          rw [if_pos h]
        rw [hstep, ih (e :: d0) (by simpa using h),
          List.reverse_cons, List.append_assoc]
        rfl
      · have hlen : d0.length = maxs := le_antisymm h0 (not_lt.mp h)
        have hstep : vec_shift d0 e maxs = e :: d0.dropLast := by
          unfold vec_shift
          rw [if_neg h]
        have hlen2 : (e :: d0.dropLast).length ≤ maxs := by
          simp [List.length_dropLast, hlen]
          omega
        rw [hstep, ih (e :: d0.dropLast) hlen2, List.reverse_cons,
          List.append_assoc, List.append_cons es.reverse e d0.dropLast,
          ← List.append_assoc]
        rw [List.take_append_eq_append_take]
        conv_rhs => rw [List.take_append_eq_append_take]
        congr 1
        apply take_dropLast_eq
        simp only [List.length_append, List.length_reverse,
          List.length_singleton]
        omega

lemma upsertSeq_history (s : AggState) (l : String) :
    ∀ (ms : List Metric) (t : AggState) (current : Metric)
      (hist : List (Nat × MetricValue)) (pm : Option String),
      (∀ m ∈ ms, m.label = l) →
      t.max_history = s.max_history →
      t.last_timestamp = s.last_timestamp →
      lookupEntry t.metrics l =
        some (MetricEntry.mk (.history current hist) pm) →
      ∃ current2, lookupEntry (upsertSeq t ms).metrics l =
        some (MetricEntry.mk (.history current2
          (List.foldl (fun d e => vec_shift d e s.max_history) hist
            (ms.map (fun m => (s.last_timestamp, m.value))))) pm) := by
  intro ms
  induction ms with
  | nil =>
      intro t current hist pm _ _ _ hlook
      exact ⟨current, hlook⟩
  | cons m rest ih =>
      intro t current hist pm hlabel hmax hlast hlook
      have hml : m.label = l := hlabel m (List.mem_cons_self _ _)
      have hlook2 : lookupEntry t.metrics m.label =
          some (MetricEntry.mk (.history current hist) pm) := by
        rw [hml]
        exact hlook
      have hhim := him_of_history t m none
        (MetricEntry.mk (.history current hist) pm) current hist hlook2 rfl
      show ∃ current2, lookupEntry
        (upsertSeq (handle_incoming_metric t m none) rest).metrics l = _
      have hfields := handle_incoming_metric_fields t m none
      have hlast2 := handle_incoming_metric_last t m none
      have hlookup3 : lookupEntry (handle_incoming_metric t m none).metrics l
          = some (MetricEntry.mk (.history m
              (vec_shift hist (s.last_timestamp, m.value) s.max_history))
            pm) := by
        rw [hhim]
        show lookupEntry (updateEntry t.metrics m.label _) l = _
        rw [hml]
        rw [lookupEntry_updateEntry_self t.metrics l _ _
          (by rw [← hml]; exact hlook2)]
        rw [hlast, hmax]
      have := ih (handle_incoming_metric t m none) m
        (vec_shift hist (s.last_timestamp, m.value) s.max_history) pm
        (fun m2 hm2 => hlabel m2 (List.mem_cons_of_mem _ hm2))
        (by rw [hfields.1, hmax])
        (by rw [hlast2, hlast])
        hlookup3
      simpa using this

lemma applyRule_movingAvg (s : AggState) (rule : AutoMetricRule)
    (entry : MetricEntry) (current : Metric)
    (hist : List (Nat × MetricValue)) (depth : Nat)
    (hlook : lookupEntry s.metrics rule.src_metric_name = some entry)
    (htype : rule.rule_type = .movingAverage depth)
    (hstor : entry.storage = .history current hist) :
    applyRule s rule =
      if 0 < (hist.take depth).length then
        metric_from_avg
          (((hist.take depth).foldl (fun acc p => acc + p.2.toQ) 0) /
            ((hist.take depth).length : ℚ))
          current.unit rule.dst_metric_name
      else none := by
  unfold applyRule
  rw [hlook]
  dsimp only
  rw [htype, hstor]

lemma foldl_add_toQ (l : List (Nat × MetricValue)) (a : ℚ) :
    l.foldl (fun acc p => acc + p.2.toQ) a =
      a + (l.map (fun p => p.2.toQ)).sum := by
  induction l generalizing a with
  | nil => simp
  | cons p l ih => simp [ih, add_assoc]

/-! ### The history-query loop -/

lemma histLoopAux_cons (t : Nat) (v : MetricValue)
    (rest : List (Nat × MetricValue)) (idx reqLen : Nat)
    (data : List (ℚ × ℚ)) (mn mx : Option ℚ) :
    histLoopAux ((t, v) :: rest) idx reqLen data mn mx =
      histLoopAux rest (idx + 1) reqLen
        (if idx < reqLen then
          data.set (reqLen - idx - 1) ((t : ℚ) / 1000000, v.toQ)
        else data)
        (some (min v.toQ (mn.getD v.toQ)))
        (some (max v.toQ (mx.getD 0))) := rfl

lemma drop_set_cons {α : Type} :
    ∀ (l : List α) (m : Nat) (x : α), m < l.length →
      (l.set m x).drop m = x :: l.drop (m + 1) := by
  intro l
  induction l with
  | nil =>
      intro m x h
      simp at h
  | cons a l ih =>
      intro m x h
      cases m with
      | zero => rfl
      | succ m2 =>
          show ((a :: l).set (m2 + 1) x).drop (m2 + 1) =
            x :: (a :: l).drop (m2 + 2)
          rw [show (a :: l).set (m2 + 1) x = a :: l.set m2 x from rfl,
            List.drop_succ_cons, List.drop_succ_cons]
          exact ih m2 x (by simpa using h)

lemma foldl_max_shift : ∀ (l : List ℚ) (a b : ℚ),
    l.foldl max (max a b) = max b (l.foldl max a) := by
  intro l
  induction l with
  | nil =>
      intro a b
      exact max_comm a b
  | cons c l ih =>
      intro a b
      rw [List.foldl_cons, List.foldl_cons,
        show max (max a b) c = max (max a c) b from by
          rw [max_assoc, max_comm b c, ← max_assoc]]
      exact ih (max a c) b

lemma histLoopAux_characterize :
    ∀ (hist : List (Nat × MetricValue)) (idx reqLen : Nat)
      (data : List (ℚ × ℚ)) (m b : ℚ),
      data.length = reqLen → reqLen - idx ≤ hist.length →
      histLoopAux hist idx reqLen data (some m) (some b) =
        (((hist.take (reqLen - idx)).map
            (fun p => ((p.1 : ℚ) / 1000000, p.2.toQ))).reverse ++
          data.drop (reqLen - idx),
         some ((hist.map (fun p => p.2.toQ)).foldl min m),
         some ((hist.map (fun p => p.2.toQ)).foldl max b)) := by
  intro hist
  induction hist with
  | nil =>
      intro idx reqLen data m b hdata hk
      have h0 : reqLen - idx = 0 := by
        simpa using hk
      simp [histLoopAux, h0]
  | cons p rest ih =>
      intro idx reqLen data m b hdata hk
      obtain ⟨t, v⟩ := p
      rw [histLoopAux_cons]
      simp only [Option.getD_some]
      by_cases hidx : idx < reqLen
      · rw [if_pos hidx]
        have hk2 : reqLen - (idx + 1) ≤ rest.length := by
          simp only [List.length_cons] at hk
          omega
        rw [ih (idx + 1) reqLen _ (min v.toQ m) (max v.toQ b)
          (by rw [List.length_set]; exact hdata) hk2]
        obtain ⟨k, hk3⟩ : ∃ k, reqLen - idx = k + 1 :=
          ⟨reqLen - idx - 1, by omega⟩
        have e3 : reqLen - idx - 1 = k := by omega
        have e1 : reqLen - (idx + 1) = k := by omega
        rw [e3, e1, hk3]
        simp only [Prod.mk.injEq]
        refine ⟨?_, ?_, ?_⟩
        · rw [List.take_succ_cons, List.map_cons, List.reverse_cons,
            List.append_assoc, drop_set_cons data k _ (by omega)]
          rfl
        · rw [List.map_cons, List.foldl_cons, min_comm v.toQ m]
        · rw [List.map_cons, List.foldl_cons, max_comm v.toQ b]
      · rw [if_neg hidx]
        have h0 : reqLen - idx = 0 := by omega
        have h1 : reqLen - (idx + 1) = 0 := by omega
        rw [ih (idx + 1) reqLen data (min v.toQ m) (max v.toQ b) hdata
          (by omega)]
        simp only [Prod.mk.injEq, h0, h1, List.take_zero, List.map_nil,
          List.reverse_nil, List.nil_append, List.drop_zero]
        refine ⟨trivial, ?_, ?_⟩
        · rw [List.map_cons, List.foldl_cons, min_comm v.toQ m]
        · rw [List.map_cons, List.foldl_cons, max_comm v.toQ b]

lemma get_metric_history_of_history (s : AggState) (name : String)
    (max_len : Nat) (entry : MetricEntry) (current : Metric)
    (hist : List (Nat × MetricValue))
    (hlook : lookupEntry s.metrics name = some entry)
    (hstor : entry.storage = .history current hist)
    (hnum : current.value.isNumeric = true) :
    get_metric_history s name max_len =
      match histLoopAux hist 0 (min max_len hist.length)
          (List.replicate (min max_len hist.length) ((0 : ℚ), (0 : ℚ)))
          none none with
      | (data, some mn, some mx) => some (data, mn, mx)
      | _ => none := by
  unfold get_metric_history
  rw [hlook]
  dsimp only
  rw [hstor]
  dsimp only
  simp only [hnum, if_true]

/-! ### Timestamp monotonicity -/

lemma him_histSorted (s : AggState) (m : Metric) (p : Option String)
    (h : HistSorted s) : HistSorted (handle_incoming_metric s m p) := by
  cases hfind : lookupEntry s.metrics m.label with
  | some e =>
      cases hst : e.storage with
      | history c hist =>
          rw [him_of_history s m p e c hist hfind hst]
          intro l entry current hist2 hlook2 hstor2
          by_cases hlm : l = m.label
          · subst hlm
            rw [show lookupEntry (updateEntry s.metrics m.label
                (MetricEntry.mk (.history m (vec_shift hist
                  (s.last_timestamp, m.value) s.max_history))
                  e.parent_metric)) m.label =
                some (MetricEntry.mk (.history m (vec_shift hist
                  (s.last_timestamp, m.value) s.max_history))
                  e.parent_metric) from
              lookupEntry_updateEntry_self _ _ _ e hfind] at hlook2
            injection hlook2 with he
            subst he
            simp only at hstor2
            injection hstor2 with hcur hh2
            subst hh2
            obtain ⟨hpw, hbd⟩ := h m.label e c hist hfind hst
            have hstepPW : (vec_shift hist (s.last_timestamp, m.value)
                s.max_history).Pairwise (fun a b => b.1 ≤ a.1) := by
              unfold vec_shift
              split
              · exact List.pairwise_cons.mpr ⟨fun q hq => hbd q hq, hpw⟩
              · refine List.pairwise_cons.mpr ⟨?_, ?_⟩
                · intro q hq
                  exact hbd q ((List.dropLast_sublist hist).subset hq)
                · exact hpw.sublist (List.dropLast_sublist hist)
            have hstepBD : ∀ q ∈ vec_shift hist (s.last_timestamp, m.value)
                s.max_history, q.1 ≤ s.last_timestamp := by
              unfold vec_shift
              split
              · intro q hq
                rcases List.mem_cons.mp hq with hq1 | hq1
                · subst hq1; exact le_refl _
                · exact hbd q hq1
              · intro q hq
                rcases List.mem_cons.mp hq with hq1 | hq1
                · subst hq1; exact le_refl _
                · exact hbd q ((List.dropLast_sublist hist).subset hq1)
            exact ⟨hstepPW, hstepBD⟩
          · rw [show lookupEntry (updateEntry s.metrics m.label
                (MetricEntry.mk (.history m (vec_shift hist
                  (s.last_timestamp, m.value) s.max_history))
                  e.parent_metric)) l = lookupEntry s.metrics l from
              lookupEntry_updateEntry_ne _ _ _ _ hlm] at hlook2
            exact h l entry current hist2 hlook2 hstor2
      | currentOnly c =>
          rw [him_of_currentOnly s m p e c hfind hst]
          intro l entry current hist2 hlook2 hstor2
          by_cases hlm : l = m.label
          · subst hlm
            rw [show lookupEntry (updateEntry s.metrics m.label
                (MetricEntry.mk (.currentOnly m) e.parent_metric)) m.label =
                some (MetricEntry.mk (.currentOnly m) e.parent_metric) from
              lookupEntry_updateEntry_self _ _ _ e hfind] at hlook2
            injection hlook2 with he
            subst he
            simp at hstor2
          · rw [show lookupEntry (updateEntry s.metrics m.label
                (MetricEntry.mk (.currentOnly m) e.parent_metric)) l =
                lookupEntry s.metrics l from
              lookupEntry_updateEntry_ne _ _ _ _ hlm] at hlook2
            exact h l entry current hist2 hlook2 hstor2
  | none =>
      rw [him_of_new s m p hfind]
      intro l entry current hist2 hlook2 hstor2
      rw [show lookupEntry ((create_auto_rules s
          (classifyStorage s m)).metrics ++
          [(m.label, MetricEntry.mk (classifyStorage s m) p)]) l =
          lookupEntry (s.metrics ++
            [(m.label, MetricEntry.mk (classifyStorage s m) p)]) l from by
        rw [create_auto_rules_metrics]] at hlook2
      rw [show AggState.last_timestamp
          { create_auto_rules s (classifyStorage s m) with
            metrics := (create_auto_rules s (classifyStorage s m)).metrics ++
              [(m.label, MetricEntry.mk (classifyStorage s m) p)] } =
          s.last_timestamp from create_auto_rules_last s _]
      by_cases hlm : l = m.label
      · subst hlm
        rw [lookupEntry_append_self _ _ _ hfind] at hlook2
        injection hlook2 with he
        subst he
        simp only at hstor2
        unfold classifyStorage at hstor2
        cases hnum : m.unit.raw_unit_num <;> rw [hnum] at hstor2 <;>
          first
          | (injection hstor2 with hcur hh2
             subst hh2
             refine ⟨List.pairwise_singleton _ _, ?_⟩
             intro q hq
             simp only [List.mem_singleton] at hq
             subst hq
             exact le_refl _)
          | simp at hstor2
      · rw [lookupEntry_append_ne _ _ _ _ hlm] at hlook2
        exact h l entry current hist2 hlook2 hstor2

lemma handle_metrics_histSorted (s : AggState) (ts : Nat)
    (ms : List Metric) (h : HistSorted s) (hts : s.last_timestamp ≤ ts) :
    HistSorted (handle_metrics s ts ms) := by
  apply handle_metrics_preserve HistSorted him_histSorted
  intro l entry current hist hlook hstor
  obtain ⟨hpw, hbd⟩ := h l entry current hist hlook hstor
  exact ⟨hpw, fun p hp => le_trans (hbd p hp) hts⟩

lemma runBatches_histSorted :
    ∀ (bs : List (Nat × List Metric)) (s : AggState), HistSorted s →
      List.Chain' (· ≤ ·) (s.last_timestamp :: bs.map Prod.fst) →
      HistSorted (runBatches s bs) := by
  intro bs
  induction bs with
  | nil =>
      intro s h _
      exact h
  | cons b rest ih =>
      intro s h hchain
      rw [List.map_cons] at hchain
      have h1 : s.last_timestamp ≤ b.1 :=
        (List.chain'_cons.mp hchain).1
      show HistSorted (runBatches (handle_metrics s b.1 b.2) rest)
      apply ih
      · exact handle_metrics_histSorted s b.1 b.2 h h1
      · rw [handle_metrics_last]
        exact (List.chain'_cons.mp hchain).2

/-! ### Claim theorems -/

/-- C1 counterexample: in the spec's end-to-end scenario (batch `t=0`
with `pkts = 100`, then batch `t=300000µs` with `pkts = 130`, threshold
250000µs), the stored `pkts-ps` value is `Integer 100`, not the claimed
`Integer 99`: the rate `(130-100)/0.3s` evaluates to exactly `100` (both
in exact arithmetic and in IEEE-754 doubles, where `30.0 / (300000.0 *
1e-6)` rounds to `100.0`), so truncation yields `100`. -/
theorem c1_counterexample :
    (get_metric c1state2 "pkts-ps").map Metric.value =
        some (MetricValue.integer 100) ∧
      (get_metric c1state2 "pkts-ps").map Metric.value ≠
        some (MetricValue.integer 99) := by
  constructor <;>
  norm_num +decide [c1state2, c1state1, c5state2, c5state1, pktsMetric,
    bytesMetric, AggState.new, DEFAULT_MAX_HISTORY, DEFAULT_DELTAT,
    handle_metrics, handle_auto_rules, handleAutoRulesAux, runRule, applyRule,
    timeDiffScan, metric_from_time_diff, metric_from_avg, create_auto_rules,
    handle_incoming_metric, lookupEntry, updateEntry, vec_shift, wsub, truncQ,
    MetricValue.toQ, MetricValue.isNumeric, OrderOfMagnitude.get_factor,
    OrderOfMagnitude.get_exponent, get_metric, strEndsWith]

/-- C1 amended: same scenario, but the derived `pkts-ps` value is
`Integer 100` (truncation of `(130-100)/0.3`); the rest of the claim is
as stated: after the first batch alone no `pkts-ps` entry exists, and
after the second the stored `pkts-ps` metric has unit numerator
`Packets`, denominator `Seconds`, magnitude `One`. -/
theorem c1_amended :
    get_metric c1state1 "pkts-ps" = none ∧
    get_metric c1state2 "pkts-ps" = some
      { label := "pkts-ps"
        unit := { raw_unit_num := .packets
                  raw_unit_den := .seconds
                  order_of_magnitude := .one }
        value := .integer 100 } := by
  constructor <;>
  norm_num +decide [c1state2, c1state1, c5state2, c5state1, pktsMetric,
    bytesMetric, AggState.new, DEFAULT_MAX_HISTORY, DEFAULT_DELTAT,
    handle_metrics, handle_auto_rules, handleAutoRulesAux, runRule, applyRule,
    timeDiffScan, metric_from_time_diff, metric_from_avg, create_auto_rules,
    handle_incoming_metric, lookupEntry, updateEntry, vec_shift, wsub, truncQ,
    MetricValue.toQ, MetricValue.isNumeric, OrderOfMagnitude.get_factor,
    OrderOfMagnitude.get_exponent, get_metric, strEndsWith]

/-- C5 counterexample: with the `Bytes/None` counter samples
`(t=0, 1000)` and `(t=1000000µs, 3000)`, the derived `-ps` metric's value
is `Integer 2`, not the claimed `Integer (-2)`: the code computes
`first − second` with `first` the newest history sample (3000), so the
difference is `+2000`, and `(1/1000 × 2000) / 1.0s = 2`. -/
theorem c5_counterexample :
    (get_metric c5state2 "ctr-ps").map Metric.value =
        some (MetricValue.integer 2) ∧
      (get_metric c5state2 "ctr-ps").map Metric.value ≠
        some (MetricValue.integer (-2)) := by
  constructor <;>
  norm_num +decide [c1state2, c1state1, c5state2, c5state1, pktsMetric,
    bytesMetric, AggState.new, DEFAULT_MAX_HISTORY, DEFAULT_DELTAT,
    handle_metrics, handle_auto_rules, handleAutoRulesAux, runRule, applyRule,
    timeDiffScan, metric_from_time_diff, metric_from_avg, create_auto_rules,
    handle_incoming_metric, lookupEntry, updateEntry, vec_shift, wsub, truncQ,
    MetricValue.toQ, MetricValue.isNumeric, OrderOfMagnitude.get_factor,
    OrderOfMagnitude.get_exponent, get_metric, strEndsWith]

/-- C5 amended: same two-sample `Bytes/None` scenario; the derived `-ps`
metric equals `(correction_factor × (3000 − 1000)) / 1.0s` with
`correction_factor = 1/1000`, i.e. `Integer 2`, with unit denominator
`Seconds` and magnitude `Kilo` (the claim had the operand order of the
subtraction reversed: `first` is the newest sample). -/
theorem c5_amended :
    get_metric c5state2 "ctr-ps" = some
      { label := "ctr-ps"
        unit := { raw_unit_num := .bytes
                  raw_unit_den := .seconds
                  order_of_magnitude := .kilo }
        value := .integer 2 } ∧
    MetricValue.integer 2 =
      .integer (truncQ (((1 / 1000 : ℚ) * ((3000 : ℚ) - 1000)) / 1)) := by
  constructor <;>
  norm_num +decide [c1state2, c1state1, c5state2, c5state1, pktsMetric,
    bytesMetric, AggState.new, DEFAULT_MAX_HISTORY, DEFAULT_DELTAT,
    handle_metrics, handle_auto_rules, handleAutoRulesAux, runRule, applyRule,
    timeDiffScan, metric_from_time_diff, metric_from_avg, create_auto_rules,
    handle_incoming_metric, lookupEntry, updateEntry, vec_shift, wsub, truncQ,
    MetricValue.toQ, MetricValue.isNumeric, OrderOfMagnitude.get_factor,
    OrderOfMagnitude.get_exponent, get_metric, strEndsWith]

/-- C6: for a label not yet in the store, the upsert creates a `History`
entry initialized with exactly one sample `(batch timestamp, value)` if and
only if the metric's unit numerator is `Bytes`, `Bits`, `Packets` or
`None`; for the only other numerator (`Seconds`) it creates a
`CurrentOnly` entry — in both cases independent of the unit's denominator
and order of magnitude (the statement quantifies over all units). -/
theorem c6_retention_classification (s : AggState) (m : Metric)
    (p : Option String)
    (hfresh : lookupEntry s.metrics m.label = none) :
    lookupEntry (handle_incoming_metric s m p).metrics m.label =
      some (MetricEntry.mk (classifyStorage s m) p) ∧
    (classifyStorage s m =
        MetricStorage.history m [(s.last_timestamp, m.value)] ↔
      (m.unit.raw_unit_num = .bytes ∨ m.unit.raw_unit_num = .bits ∨
        m.unit.raw_unit_num = .packets ∨ m.unit.raw_unit_num = .rnone)) ∧
    (classifyStorage s m = MetricStorage.currentOnly m ↔
      m.unit.raw_unit_num = .seconds) := by
  refine ⟨?_, ?_, ?_⟩
  · rw [him_of_new s m p hfresh]
    show lookupEntry ((create_auto_rules s _).metrics ++ _) _ = _
    rw [create_auto_rules_metrics]
    exact lookupEntry_append_self _ _ _ hfresh
  · cases h : m.unit.raw_unit_num <;> simp [classifyStorage, h]
  · cases h : m.unit.raw_unit_num <;> simp [classifyStorage, h]

/-- C6 witness: instantiation at a fresh aggregator and the `Packets`
metric `pkts = 5`. -/
theorem c6_retention_classification_witness :
    lookupEntry AggState.new.metrics (pktsMetric 5).label = none ∧
    (lookupEntry
        (handle_incoming_metric AggState.new (pktsMetric 5) none).metrics
        (pktsMetric 5).label =
      some (MetricEntry.mk (classifyStorage AggState.new (pktsMetric 5))
        none) ∧
    (classifyStorage AggState.new (pktsMetric 5) =
        MetricStorage.history (pktsMetric 5)
          [(AggState.new.last_timestamp, (pktsMetric 5).value)] ↔
      ((pktsMetric 5).unit.raw_unit_num = .bytes ∨
        (pktsMetric 5).unit.raw_unit_num = .bits ∨
        (pktsMetric 5).unit.raw_unit_num = .packets ∨
        (pktsMetric 5).unit.raw_unit_num = .rnone)) ∧
    (classifyStorage AggState.new (pktsMetric 5) =
        MetricStorage.currentOnly (pktsMetric 5) ↔
      (pktsMetric 5).unit.raw_unit_num = .seconds)) :=
  ⟨rfl, c6_retention_classification AggState.new (pktsMetric 5) none rfl⟩

/-- C7: for every batch applied by `handle_metrics` (external ingestion
followed by the rule pass, whose outputs re-enter the same upsert), label
uniqueness of the store is preserved, the storage kind of every label
present before the batch is unchanged after it (for arbitrary metrics and
units in the batch), and an upsert whose label already exists replaces the
entry in place, leaving the key sequence untouched. -/
theorem c7_unique_and_stable (s : AggState) (ts : Nat) (ms : List Metric)
    (hnd : (keys s.metrics).Nodup) :
    (keys (handle_metrics s ts ms).metrics).Nodup ∧
    (∀ l, (lookupEntry s.metrics l).isSome →
      entryKind (handle_metrics s ts ms) l = entryKind s l) ∧
    (∀ (m : Metric) (p : Option String) (e : MetricEntry),
      lookupEntry s.metrics m.label = some e →
      keys (handle_incoming_metric s m p).metrics = keys s.metrics) := by
  have main := handle_metrics_preserve
    (fun t => (keys t.metrics).Nodup ∧
      ∀ l, (lookupEntry s.metrics l).isSome →
        (lookupEntry t.metrics l).isSome ∧ entryKind t l = entryKind s l)
    (by
      intro t m p ht
      refine ⟨handle_incoming_metric_nodup t m p ht.1, ?_⟩
      intro l hl
      obtain ⟨hsome, hkind⟩ := ht.2 l hl
      exact ⟨handle_incoming_metric_isSome t m p l hsome,
        (handle_incoming_metric_entryKind t m p l hsome).trans hkind⟩)
    s ts ms
    ⟨hnd, fun l hl => ⟨hl, rfl⟩⟩
  refine ⟨main.1, ?_, ?_⟩
  · intro l hl
    exact (main.2 l hl).2
  · intro m p e hfind
    exact handle_incoming_metric_keys_mem s m p e hfind

/-- C7 witness: instantiation at the one-entry store `smallState` with a
batch that both updates the existing label and introduces a new one. -/
theorem c7_unique_and_stable_witness :
    (keys smallState.metrics).Nodup ∧
    ((keys (handle_metrics smallState 5
        [pktsMetric 2, bytesMetric 7]).metrics).Nodup ∧
    (∀ l, (lookupEntry smallState.metrics l).isSome →
      entryKind (handle_metrics smallState 5 [pktsMetric 2, bytesMetric 7]) l
        = entryKind smallState l) ∧
    (∀ (m : Metric) (p : Option String) (e : MetricEntry),
      lookupEntry smallState.metrics m.label = some e →
      keys (handle_incoming_metric smallState m p).metrics =
        keys smallState.metrics)) :=
  ⟨by decide,
    c7_unique_and_stable smallState 5 [pktsMetric 2, bytesMetric 7]
      (by decide)⟩

/-- C9: in every state reachable from a fresh aggregator by a sequence of
`handle_metrics` batches, no `MovingAverage` rule has a source label
ending in "-avg" (and each such rule's destination is its source plus
"-avg", so no "-avg-avg" destination label is ever created by a rule):
`create_auto_rules` only appends a `MovingAverage` rule when the newly
seen label does not already end in "-avg". -/
theorem c9_no_avg_chain (bs : List (Nat × List Metric)) :
    ∀ rule ∈ (runBatches AggState.new bs).auto_metric_rules, ∀ depth,
      rule.rule_type = AutoMetricRuleType.movingAverage depth →
      strEndsWith rule.src_metric_name "-avg" = false ∧
      rule.dst_metric_name = rule.src_metric_name ++ "-avg" :=
  runBatches_noAvgChain bs AggState.new (by intro rule hr; simp [AggState.new] at hr)

/-- C9 witness: ingesting the rate-shaped metric "r" creates the
`MovingAverage` rule `mavgRule`, whose source "r" indeed does not end in
"-avg". -/
theorem c9_no_avg_chain_witness :
    mavgRule ∈
      (runBatches AggState.new [(0, [rateMetric 5])]).auto_metric_rules ∧
    mavgRule.rule_type = AutoMetricRuleType.movingAverage 32 ∧
    strEndsWith mavgRule.src_metric_name "-avg" = false ∧
    mavgRule.dst_metric_name = mavgRule.src_metric_name ++ "-avg" := by
  have hmem : mavgRule ∈
      (runBatches AggState.new [(0, [rateMetric 5])]).auto_metric_rules := by
    norm_num +decide [runBatches, rateMetric, mavgRule, AggState.new,
      DEFAULT_MAX_HISTORY, DEFAULT_DELTAT, handle_metrics, handle_auto_rules,
      handleAutoRulesAux, runRule, applyRule, timeDiffScan,
      metric_from_time_diff, metric_from_avg, create_auto_rules,
      handle_incoming_metric, lookupEntry, updateEntry, vec_shift, wsub,
      truncQ, MetricValue.toQ, MetricValue.isNumeric,
      OrderOfMagnitude.get_factor, OrderOfMagnitude.get_exponent, strEndsWith]
  exact ⟨hmem, rfl,
    (c9_no_avg_chain [(0, [rateMetric 5])] mavgRule hmem 32 rfl).1,
    (c9_no_avg_chain [(0, [rateMetric 5])] mavgRule hmem 32 rfl).2⟩

/-- C2: in the `TimeDifferentiate` pass over a history with non-increasing
timestamps (newest first), the scan from the newest sample `first`
backward keeps overwriting the candidate with every older sample whose
time distance reaches the threshold, so the baseline actually used is the
last qualifying sample in scan order — the OLDEST qualifying sample, the
one of minimal timestamp (widest window); and if the history has fewer
than 2 samples, or no older sample qualifies, the rule leaves the state
unchanged. -/
theorem c2_baseline_selection (s : AggState) (i : Nat)
    (rule : AutoMetricRule) (entry : MetricEntry) (current : Metric)
    (hist : List (Nat × MetricValue))
    (hrule : s.auto_metric_rules.get? i = some rule)
    (htype : rule.rule_type = .timeDifferentiate)
    (hlook : lookupEntry s.metrics rule.src_metric_name = some entry)
    (hstor : entry.storage = .history current hist)
    (hsort : hist.Pairwise (fun a b => b.1 ≤ a.1))
    (hbound : ∀ q ∈ hist, q.1 < 2 ^ 64) :
    (hist.length < 2 → runRule s i = s) ∧
    (∀ first rest, hist = first :: rest →
      ((rest.filter (fun c =>
          decide (s.desired_deltat_diffs_us ≤ first.1 - c.1))) = [] →
        runRule s i = s) ∧
      (∀ cur,
        (rest.filter (fun c =>
          decide (s.desired_deltat_diffs_us ≤ first.1 - c.1))).getLast? =
            some cur →
        s.desired_deltat_diffs_us ≤ first.1 - cur.1 ∧
        (∀ c ∈ rest, s.desired_deltat_diffs_us ≤ first.1 - c.1 →
          cur.1 ≤ c.1) ∧
        applyRule s rule = metric_from_time_diff first.2 cur.2 current.unit
          rule.dst_metric_name (first.1 - cur.1) ∧
        (∀ gm, metric_from_time_diff first.2 cur.2 current.unit
            rule.dst_metric_name (first.1 - cur.1) = some gm →
          runRule s i =
            handle_incoming_metric s gm (some rule.src_metric_name)))) := by
  constructor
  · intro hlen
    match hist, hlen with
    | [], _ =>
        rw [runRule_eq s i rule hrule,
          applyRule_timeDiff_nil s rule entry current hlook htype hstor]
    | [a], _ =>
        rw [runRule_eq s i rule hrule,
          applyRule_timeDiff_cons s rule entry current a [] hlook htype hstor,
          timeDiffScan_eq]
        rfl
  · intro first rest heq
    subst heq
    have hfb : first.1 < 2 ^ 64 := hbound first (List.mem_cons_self _ _)
    have hle : ∀ c ∈ rest, c.1 ≤ first.1 :=
      fun c hc => (List.pairwise_cons.mp hsort).1 c hc
    have hfilter :
        rest.filter (fun c =>
            decide (s.desired_deltat_diffs_us ≤ wsub first.1 c.1)) =
          rest.filter (fun c =>
            decide (s.desired_deltat_diffs_us ≤ first.1 - c.1)) := by
      apply List.filter_congr
      intro c hc
      rw [wsub_eq_sub first.1 c.1 (hle c hc) hfb]
    have happ := applyRule_timeDiff_cons s rule entry current first rest
      hlook htype hstor
    rw [timeDiffScan_eq, hfilter] at happ
    constructor
    · intro hempty
      rw [hempty] at happ
      simp only [List.getLast?_nil, Option.map_none', Option.getD_none]
        at happ
      rw [runRule_eq s i rule hrule, happ]
    · intro cur hcur
      have hcmem : cur ∈ rest.filter (fun c =>
          decide (s.desired_deltat_diffs_us ≤ first.1 - c.1)) :=
        List.mem_of_mem_getLast? hcur
      have hcrest : cur ∈ rest := List.mem_of_mem_filter hcmem
      have hqual : s.desired_deltat_diffs_us ≤ first.1 - cur.1 := by
        have := List.of_mem_filter hcmem
        simpa using this
      have hold : ∀ c ∈ rest, s.desired_deltat_diffs_us ≤ first.1 - c.1 →
          cur.1 ≤ c.1 := by
        intro c hc hq
        exact getLast_le_of_pairwise _
          ((List.pairwise_cons.mp hsort).2.filter _) cur hcur c
          (List.mem_filter.mpr ⟨hc, by simpa using hq⟩)
      rw [hcur] at happ
      simp only [Option.map_some', Option.getD_some] at happ
      rw [wsub_eq_sub first.1 cur.1 (hle cur hcrest) hfb] at happ
      refine ⟨hqual, hold, happ, ?_⟩
      intro gm hgm
      rw [runRule_eq s i rule hrule, happ, hgm]

/-- C2 witness: instantiation at `histEntryState` — three samples,
two qualifying gaps (300000µs and 600000µs); the theorem applies with all
hypotheses discharged by computation. -/
theorem c2_baseline_selection_witness :
    (histEntryState.auto_metric_rules.get? 0 = some tdRule) ∧
    (tdRule.rule_type = AutoMetricRuleType.timeDifferentiate) ∧
    (lookupEntry histEntryState.metrics tdRule.src_metric_name =
      some histEntry) ∧
    (histEntry.storage = MetricStorage.history (xMetric 10) histSamples) ∧
    (histSamples.Pairwise (fun a b => b.1 ≤ a.1)) ∧
    (∀ q ∈ histSamples, q.1 < 2 ^ 64) ∧
    ((histSamples.length < 2 → runRule histEntryState 0 = histEntryState) ∧
    (∀ first rest, histSamples = first :: rest →
      ((rest.filter (fun c =>
          decide (histEntryState.desired_deltat_diffs_us ≤
            first.1 - c.1))) = [] →
        runRule histEntryState 0 = histEntryState) ∧
      (∀ cur,
        (rest.filter (fun c =>
          decide (histEntryState.desired_deltat_diffs_us ≤
            first.1 - c.1))).getLast? = some cur →
        histEntryState.desired_deltat_diffs_us ≤ first.1 - cur.1 ∧
        (∀ c ∈ rest,
          histEntryState.desired_deltat_diffs_us ≤ first.1 - c.1 →
          cur.1 ≤ c.1) ∧
        applyRule histEntryState tdRule =
          metric_from_time_diff first.2 cur.2 (xMetric 10).unit
            tdRule.dst_metric_name (first.1 - cur.1) ∧
        (∀ gm, metric_from_time_diff first.2 cur.2 (xMetric 10).unit
            tdRule.dst_metric_name (first.1 - cur.1) = some gm →
          runRule histEntryState 0 =
            handle_incoming_metric histEntryState gm
              (some tdRule.src_metric_name))))) :=
  ⟨rfl, rfl, by decide, rfl, by decide, by decide,
    c2_baseline_selection histEntryState 0 tdRule histEntry (xMetric 10)
      histSamples rfl rfl (by decide) rfl (by decide) (by decide)⟩

/-- C4: starting from a state where label `m0.label` is unknown, a
sequence of `N = 1 + rest.length` upserts to that label (the first
creating a `History` entry, by its numerator class) leaves a history that
is exactly the most recent `max_history` of the `N` inserted samples,
newest first — `take max_history` of the reversed insertion sequence — so
its length is `min N max_history` and never exceeds `max_history`; and at
capacity every insertion evicts exactly the back (oldest) sample before
prepending. -/
theorem c4_ring_bound (s : AggState) (m0 : Metric) (rest : List Metric)
    (hmax : 1 ≤ s.max_history)
    (hfresh : lookupEntry s.metrics m0.label = none)
    (hlabel : ∀ m ∈ m0 :: rest, m.label = m0.label)
    (hclass : m0.unit.raw_unit_num = .bytes ∨ m0.unit.raw_unit_num = .bits ∨
      m0.unit.raw_unit_num = .packets ∨ m0.unit.raw_unit_num = .rnone) :
    (∃ current2, lookupEntry (upsertSeq s (m0 :: rest)).metrics m0.label =
      some (MetricEntry.mk (.history current2
        ((((m0 :: rest).map
            (fun m => (s.last_timestamp, m.value))).reverse).take
          s.max_history)) none) ∧
      ((((m0 :: rest).map
          (fun m => (s.last_timestamp, m.value))).reverse).take
        s.max_history).length =
        min (m0 :: rest).length s.max_history) ∧
    (∀ (d : List (Nat × MetricValue)) e, d.length = s.max_history →
      vec_shift d e s.max_history = e :: d.dropLast) := by
  constructor
  · have hcls : classifyStorage s m0 =
        .history m0 [(s.last_timestamp, m0.value)] := by
      rcases hclass with h | h | h | h <;> simp [classifyStorage, h]
    have hstep : upsertSeq s (m0 :: rest) =
        upsertSeq (handle_incoming_metric s m0 none) rest := rfl
    have hlook1 :
        lookupEntry (handle_incoming_metric s m0 none).metrics m0.label =
          some (MetricEntry.mk
            (.history m0 [(s.last_timestamp, m0.value)]) none) := by
      rw [him_of_new s m0 none hfresh]
      show lookupEntry ((create_auto_rules s _).metrics ++ _) _ = _
      rw [create_auto_rules_metrics, lookupEntry_append_self _ _ _ hfresh,
        hcls]
    obtain ⟨current2, hc⟩ := upsertSeq_history s m0.label rest
      (handle_incoming_metric s m0 none) m0 [(s.last_timestamp, m0.value)]
      none
      (fun m hm => hlabel m (List.mem_cons_of_mem _ hm))
      (handle_incoming_metric_fields s m0 none).1
      (handle_incoming_metric_last s m0 none)
      hlook1
    have hf : List.foldl (fun d e => vec_shift d e s.max_history)
        [(s.last_timestamp, m0.value)]
        (rest.map (fun m => (s.last_timestamp, m.value))) =
        (((m0 :: rest).map
          (fun m => (s.last_timestamp, m.value))).reverse).take
          s.max_history := by
      rw [foldl_vec_shift s.max_history hmax _ _ (by simpa using hmax),
        List.map_cons, List.reverse_cons]
    rw [hf] at hc
    refine ⟨current2, ?_, ?_⟩
    · rw [hstep]
      exact hc
    · rw [List.length_take, List.length_reverse, List.length_map]
      exact Nat.min_comm _ _
  · intro d e hd
    unfold vec_shift
    rw [if_neg (by omega)]

/-- C4 witness: three upserts of label "x" into `tinyState` (capacity 2):
the retained history is the two most recent samples, newest first. -/
theorem c4_ring_bound_witness :
    (1 ≤ tinyState.max_history) ∧
    (lookupEntry tinyState.metrics (xMetric 1).label = none) ∧
    (∀ m ∈ xMetric 1 :: [xMetric 2, xMetric 3],
      m.label = (xMetric 1).label) ∧
    ((xMetric 1).unit.raw_unit_num = .bytes ∨
      (xMetric 1).unit.raw_unit_num = .bits ∨
      (xMetric 1).unit.raw_unit_num = .packets ∨
      (xMetric 1).unit.raw_unit_num = .rnone) ∧
    ((∃ current2, lookupEntry
        (upsertSeq tinyState (xMetric 1 :: [xMetric 2, xMetric 3])).metrics
        (xMetric 1).label =
      some (MetricEntry.mk (.history current2
        ((((xMetric 1 :: [xMetric 2, xMetric 3]).map
            (fun m => (tinyState.last_timestamp, m.value))).reverse).take
          tinyState.max_history)) none) ∧
      ((((xMetric 1 :: [xMetric 2, xMetric 3]).map
          (fun m => (tinyState.last_timestamp, m.value))).reverse).take
        tinyState.max_history).length =
        min (xMetric 1 :: [xMetric 2, xMetric 3]).length
          tinyState.max_history) ∧
    (∀ (d : List (Nat × MetricValue)) e, d.length = tinyState.max_history →
      vec_shift d e tinyState.max_history = e :: d.dropLast)) :=
  ⟨by decide, rfl, by decide, by decide,
    c4_ring_bound tinyState (xMetric 1) [xMetric 2, xMetric 3]
      (by decide) rfl (by decide) (by decide)⟩

/-- C8: a `MovingAverage{depth}` rule (depth ≥ 1) whose source entry is
`History` with a non-empty sample ring emits, each pass, a metric labelled
with the rule's destination, carrying the source's unit unchanged, whose
value is `Number` equal to the arithmetic mean of the numeric coercions of
the `min(depth, h)` most-recent samples; with zero samples the rule leaves
the state unchanged. -/
theorem c8_moving_average (s : AggState) (i : Nat) (rule : AutoMetricRule)
    (entry : MetricEntry) (current : Metric)
    (hist : List (Nat × MetricValue)) (depth : Nat)
    (hrule : s.auto_metric_rules.get? i = some rule)
    (htype : rule.rule_type = .movingAverage depth)
    (hlook : lookupEntry s.metrics rule.src_metric_name = some entry)
    (hstor : entry.storage = .history current hist)
    (hdepth : 1 ≤ depth) :
    (hist ≠ [] →
      applyRule s rule = some
        { label := rule.dst_metric_name
          unit := current.unit
          value := .number
            (((hist.take depth).map (fun p => p.2.toQ)).sum /
              ((min depth hist.length : Nat) : ℚ)) } ∧
      runRule s i = handle_incoming_metric s
        { label := rule.dst_metric_name
          unit := current.unit
          value := .number
            (((hist.take depth).map (fun p => p.2.toQ)).sum /
              ((min depth hist.length : Nat) : ℚ)) }
        (some rule.src_metric_name)) ∧
    (hist = [] → runRule s i = s) := by
  have happ := applyRule_movingAvg s rule entry current hist depth
    hlook htype hstor
  constructor
  · intro hne
    have hpos : 0 < (hist.take depth).length := by
      rw [List.length_take]
      have : 0 < hist.length := List.length_pos.mpr hne
      omega
    rw [if_pos hpos, foldl_add_toQ, zero_add] at happ
    have hlen : ((hist.take depth).length : ℚ) =
        ((min depth hist.length : Nat) : ℚ) := by
      rw [List.length_take]
    rw [hlen] at happ
    have happ2 : applyRule s rule = some
        { label := rule.dst_metric_name
          unit := current.unit
          value := .number
            (((hist.take depth).map (fun p => p.2.toQ)).sum /
              ((min depth hist.length : Nat) : ℚ)) } := happ
    refine ⟨happ2, ?_⟩
    rw [runRule_eq s i rule hrule, happ2]
  · intro hnil
    subst hnil
    simp only [List.take_nil, List.length_nil, lt_irrefl, if_false] at happ
    rw [runRule_eq s i rule hrule, happ]

/-- C8 witness: instantiation at `avgState` — two samples (4 and 2),
depth 32, mean (4+2)/2 = 3. -/
theorem c8_moving_average_witness :
    (avgState.auto_metric_rules.get? 0 = some mavgRuleX) ∧
    (mavgRuleX.rule_type = AutoMetricRuleType.movingAverage 32) ∧
    (lookupEntry avgState.metrics mavgRuleX.src_metric_name =
      some avgEntry) ∧
    (avgEntry.storage = MetricStorage.history (xMetric 10)
      [(10, .integer 4), (5, .integer 2)]) ∧
    (1 ≤ 32) ∧
    ((([((10 : Nat), MetricValue.integer 4), (5, .integer 2)] ≠
        ([] : List (Nat × MetricValue))) →
      applyRule avgState mavgRuleX = some
        { label := mavgRuleX.dst_metric_name
          unit := (xMetric 10).unit
          value := .number
            ((([((10 : Nat), MetricValue.integer 4),
                (5, .integer 2)].take 32).map (fun p => p.2.toQ)).sum /
              ((min 32 [((10 : Nat), MetricValue.integer 4),
                (5, .integer 2)].length : Nat) : ℚ)) } ∧
      runRule avgState 0 = handle_incoming_metric avgState
        { label := mavgRuleX.dst_metric_name
          unit := (xMetric 10).unit
          value := .number
            ((([((10 : Nat), MetricValue.integer 4),
                (5, .integer 2)].take 32).map (fun p => p.2.toQ)).sum /
              ((min 32 [((10 : Nat), MetricValue.integer 4),
                (5, .integer 2)].length : Nat) : ℚ)) }
        (some mavgRuleX.src_metric_name)) ∧
    (([((10 : Nat), MetricValue.integer 4), (5, .integer 2)] =
        ([] : List (Nat × MetricValue))) →
      runRule avgState 0 = avgState)) :=
  ⟨rfl, rfl, by decide, rfl, by decide,
    c8_moving_average avgState 0 mavgRuleX avgEntry (xMetric 10)
      [(10, .integer 4), (5, .integer 2)] 32 rfl rfl (by decide) rfl
      (by decide)⟩

/-- C3 counterexample: after ingesting one `Bytes` metric with value
`Integer (-5)` (a single retained sample whose coercion is -5), the
history query returns max = 0, not the maximum coercion -5: the code's
max fold is seeded through `unwrap_or(0.0)`, so a history of all-negative
values reports max 0. -/
theorem c3_counterexample :
    get_metric_history negState "ctr" 10 =
        some ([((0 : ℚ), (-5 : ℚ))], (-5 : ℚ), (0 : ℚ)) ∧
      (([((0 : Nat), MetricValue.integer (-5))].map
          (fun p => p.2.toQ)).max? = some (-5 : ℚ)) ∧
      (0 : ℚ) ≠ (-5 : ℚ) := by
  refine ⟨?_, ?_, ?_⟩
  · norm_num +decide [negState, bytesMetric, AggState.new,
      DEFAULT_MAX_HISTORY, DEFAULT_DELTAT, handle_metrics, handle_auto_rules,
      handleAutoRulesAux, runRule, applyRule, timeDiffScan,
      metric_from_time_diff, metric_from_avg, create_auto_rules,
      handle_incoming_metric, lookupEntry, updateEntry, vec_shift, wsub,
      truncQ, MetricValue.toQ, MetricValue.isNumeric,
      OrderOfMagnitude.get_factor, OrderOfMagnitude.get_exponent,
      get_metric_history, histLoopAux, strEndsWith]
  · have hmap : (([((0 : Nat), MetricValue.integer (-5))]).map
        (fun p => p.2.toQ)) = [(-5 : ℚ)] := by
      norm_num [MetricValue.toQ]
    rw [hmap]
    rfl
  · norm_num

/-- C3 amended: for a History-kind entry with numeric current value and
h ≥ 1 retained samples, `get_metric_history` produces exactly
`min(max_len, h)` points — the most recent samples, oldest→newest, each
`(timestamp/1e6, coercion)` — and returns `Some (min, max 0 max')` where
`min`/`max'` are the minimum/maximum coercion over ALL h retained samples
(the true maximum is clamped from below by 0 because the max fold is
seeded with 0); for an unknown label, a CurrentOnly entry, or a
non-numeric current value it returns None. -/
theorem c3_amended_history_query :
    (∀ (s : AggState) (name : String) (max_len : Nat)
      (entry : MetricEntry) (current : Metric)
      (hist : List (Nat × MetricValue)),
      lookupEntry s.metrics name = some entry →
      entry.storage = .history current hist →
      current.value.isNumeric = true →
      hist ≠ [] →
      ∃ mn mx, (hist.map (fun p => p.2.toQ)).min? = some mn ∧
        (hist.map (fun p => p.2.toQ)).max? = some mx ∧
        get_metric_history s name max_len = some
          (((hist.take (min max_len hist.length)).map
            (fun p => ((p.1 : ℚ) / 1000000, p.2.toQ))).reverse,
           mn, max 0 mx) ∧
        (((hist.take (min max_len hist.length)).map
            (fun p => ((p.1 : ℚ) / 1000000, p.2.toQ))).reverse).length =
          min max_len hist.length) ∧
    (∀ (s : AggState) (name : String) (max_len : Nat),
      lookupEntry s.metrics name = none →
      get_metric_history s name max_len = none) ∧
    (∀ (s : AggState) (name : String) (max_len : Nat)
      (entry : MetricEntry) (current : Metric),
      lookupEntry s.metrics name = some entry →
      entry.storage = .currentOnly current →
      get_metric_history s name max_len = none) ∧
    (∀ (s : AggState) (name : String) (max_len : Nat)
      (entry : MetricEntry) (current : Metric)
      (hist : List (Nat × MetricValue)),
      lookupEntry s.metrics name = some entry →
      entry.storage = .history current hist →
      current.value.isNumeric = false →
      get_metric_history s name max_len = none) := by
  refine ⟨?_, ?_, ?_, ?_⟩
  · intro s name max_len entry current hist hlook hstor hnum hne
    obtain ⟨p0, rest, rfl⟩ := List.exists_cons_of_ne_nil hne
    obtain ⟨t0, v0⟩ := p0
    refine ⟨(rest.map (fun p => p.2.toQ)).foldl min v0.toQ,
      (rest.map (fun p => p.2.toQ)).foldl max v0.toQ,
      by rw [List.map_cons]; rfl, by rw [List.map_cons]; rfl, ?_, ?_⟩
    · rw [get_metric_history_of_history s name max_len entry current _
        hlook hstor hnum]
      rw [histLoopAux_cons]
      simp only [Option.getD_none, min_self, Nat.sub_zero]
      by_cases hreq : 0 < min max_len ((t0, v0) :: rest).length
      · rw [if_pos hreq]
        obtain ⟨k, hk3⟩ :
            ∃ k, min max_len ((t0, v0) :: rest).length = k + 1 :=
          ⟨min max_len ((t0, v0) :: rest).length - 1, by omega⟩
        have hkr : k ≤ rest.length := by
          have h1 : min max_len ((t0, v0) :: rest).length ≤
              ((t0, v0) :: rest).length := min_le_right _ _
          rw [hk3] at h1
          simp only [List.length_cons] at h1
          omega
        rw [histLoopAux_characterize rest 1
          (min max_len ((t0, v0) :: rest).length) _ v0.toQ
          (max v0.toQ 0)
          (by rw [List.length_set, List.length_replicate])
          (by omega)]
        have e1 : min max_len ((t0, v0) :: rest).length - 1 = k := by omega
        rw [e1, hk3]
        have hsetidx : k < (List.replicate (k + 1)
            ((0 : ℚ), (0 : ℚ))).length := by
          rw [List.length_replicate]
          omega
        rw [drop_set_cons _ k _ hsetidx]
        rw [show (List.replicate (k + 1)
            ((0 : ℚ), (0 : ℚ))).drop (k + 1) = [] from by simp]
        rw [List.take_succ_cons, List.map_cons, List.reverse_cons]
        rw [foldl_max_shift]
      · rw [if_neg hreq]
        have hreq0 : min max_len ((t0, v0) :: rest).length = 0 := by omega
        rw [histLoopAux_characterize rest 1
          (min max_len ((t0, v0) :: rest).length) _ v0.toQ
          (max v0.toQ 0)
          (by rw [List.length_replicate]) (by omega)]
        rw [hreq0, foldl_max_shift]
        simp
    · simp only [List.length_reverse, List.length_map, List.length_take]
      omega
  · intro s name max_len hlook
    unfold get_metric_history
    rw [hlook]
  · intro s name max_len entry current hlook hstor
    unfold get_metric_history
    rw [hlook]
    dsimp only
    rw [hstor]
  · intro s name max_len entry current hist hlook hstor hnum
    unfold get_metric_history
    rw [hlook]
    dsimp only
    rw [hstor]
    dsimp only
    simp [hnum]

/-- C3 witness: instantiation of the amended query theorem at `avgState`
(label "x", two samples) with `max_len = 10`. -/
theorem c3_amended_history_query_witness :
    (lookupEntry avgState.metrics "x" = some avgEntry) ∧
    (avgEntry.storage = MetricStorage.history (xMetric 10)
      [(10, .integer 4), (5, .integer 2)]) ∧
    ((xMetric 10).value.isNumeric = true) ∧
    (([((10 : Nat), MetricValue.integer 4), (5, .integer 2)] :
      List (Nat × MetricValue)) ≠ []) ∧
    (∃ mn mx,
      (([((10 : Nat), MetricValue.integer 4), (5, .integer 2)].map
        (fun p => p.2.toQ)).min? = some mn) ∧
      (([((10 : Nat), MetricValue.integer 4), (5, .integer 2)].map
        (fun p => p.2.toQ)).max? = some mx) ∧
      get_metric_history avgState "x" 10 = some
        ((([((10 : Nat), MetricValue.integer 4), (5, .integer 2)].take
            (min 10 [((10 : Nat), MetricValue.integer 4),
              (5, .integer 2)].length)).map
          (fun p => ((p.1 : ℚ) / 1000000, p.2.toQ))).reverse,
         mn, max 0 mx) ∧
      ((([((10 : Nat), MetricValue.integer 4), (5, .integer 2)].take
            (min 10 [((10 : Nat), MetricValue.integer 4),
              (5, .integer 2)].length)).map
          (fun p => ((p.1 : ℚ) / 1000000, p.2.toQ))).reverse).length =
        min 10 [((10 : Nat), MetricValue.integer 4),
          (5, .integer 2)].length) :=
  ⟨by decide, rfl, rfl, by decide,
    c3_amended_history_query.1 avgState "x" 10 avgEntry (xMetric 10)
      [(10, .integer 4), (5, .integer 2)] (by decide) rfl rfl (by decide)⟩

/-- C10: for every batch sequence with non-decreasing timestamps applied
to a fresh aggregator, each `History` ring holds non-increasing timestamps
from index 0, so for every pair (`first`, `cur`) examined by the
`TimeDifferentiate` scan `cur.timestamp ≤ first.timestamp` and the u64
subtraction `first.timestamp − cur.timestamp` cannot underflow; without
the precondition a batch with a smaller timestamp than its predecessor
produces a history whose head timestamp is below a later sample's, i.e.
the subtraction's minuend is smaller than its subtrahend. -/
theorem c10_timestamp_monotonicity :
    (∀ (bs : List (Nat × List Metric)),
      List.Chain' (· ≤ ·) (bs.map Prod.fst) →
      ∀ (l : String) (entry : MetricEntry) (current : Metric)
        (hist : List (Nat × MetricValue)),
        lookupEntry (runBatches AggState.new bs).metrics l = some entry →
        entry.storage = .history current hist →
        hist.Pairwise (fun a b => b.1 ≤ a.1) ∧
        (∀ first rest, hist = first :: rest →
          ∀ cur ∈ rest, cur.1 ≤ first.1)) ∧
    (∃ (entry : MetricEntry) (current : Metric)
      (hist : List (Nat × MetricValue)),
      lookupEntry (runBatches AggState.new
        [(300000, [pktsMetric 100]), (0, [pktsMetric 130])]).metrics
        "pkts" = some entry ∧
      entry.storage = .history current hist ∧
      ¬ hist.Pairwise (fun a b => b.1 ≤ a.1)) := by
  constructor
  · intro bs hchain l entry current hist hlook hstor
    have hchain0 : List.Chain' (· ≤ ·)
        (AggState.new.last_timestamp :: bs.map Prod.fst) := by
      cases hm : bs.map Prod.fst with
      | nil => simp
      | cons x xs =>
          rw [hm] at hchain
          exact List.chain'_cons.mpr ⟨Nat.zero_le _, hchain⟩
    have hinv := runBatches_histSorted bs AggState.new
      (by intro l2 e2 c2 h2 hl2 _; simp [AggState.new, lookupEntry] at hl2)
      hchain0
    obtain ⟨hpw, _⟩ := hinv l entry current hist hlook hstor
    refine ⟨hpw, ?_⟩
    intro first rest heq cur hcur
    subst heq
    exact (List.pairwise_cons.mp hpw).1 cur hcur
  · refine ⟨MetricEntry.mk (.history (pktsMetric 130)
      [(0, .integer 130), (300000, .integer 100)]) none,
      pktsMetric 130, [(0, .integer 130), (300000, .integer 100)],
      ?_, rfl, by decide⟩
    norm_num +decide [runBatches, pktsMetric, AggState.new,
      DEFAULT_MAX_HISTORY, DEFAULT_DELTAT, handle_metrics,
      handle_auto_rules, handleAutoRulesAux, runRule, applyRule,
      timeDiffScan, metric_from_time_diff, metric_from_avg,
      create_auto_rules, handle_incoming_metric, lookupEntry, updateEntry,
      vec_shift, wsub, truncQ, MetricValue.toQ, MetricValue.isNumeric,
      OrderOfMagnitude.get_factor, OrderOfMagnitude.get_exponent,
      strEndsWith]

/-- C10 witness: the monotone two-batch scenario of the end-to-end
example satisfies the first part's hypotheses, and its `pkts` ring is
sorted newest-first. -/
theorem c10_timestamp_monotonicity_witness :
    List.Chain' (· ≤ ·)
      ([(0, [pktsMetric 100]),
        ((300000 : Nat), [pktsMetric 130])].map Prod.fst) ∧
    (∀ (l : String) (entry : MetricEntry) (current : Metric)
      (hist : List (Nat × MetricValue)),
      lookupEntry (runBatches AggState.new
        [(0, [pktsMetric 100]), (300000, [pktsMetric 130])]).metrics l =
        some entry →
      entry.storage = .history current hist →
      hist.Pairwise (fun a b => b.1 ≤ a.1) ∧
      (∀ first rest, hist = first :: rest →
        ∀ cur ∈ rest, cur.1 ≤ first.1)) :=
  ⟨by simp [List.chain'_cons],
    c10_timestamp_monotonicity.1
      [(0, [pktsMetric 100]), (300000, [pktsMetric 130])]
      (by simp [List.chain'_cons])⟩

end FlowTel
